import Mathlib

/-!
Shallow embedding of the `gantt` repository (files `gantt.py` and
`csv_to_yaml.py`) together with proofs about the claims of its
natural-language specification.

Python strings that the layout code manipulates character by character are
modelled as `List Char` (a Python `str` is a sequence of code points, and
`len`, slicing and `split` act on code points).  Month numbers are `Int`
(Python `int`), and the real-valued plot coordinates produced by the layout
arithmetic are `ℚ`: every coefficient that appears in the source
(`0.2`, `0.4`, `0.5`, `1.2`, `1.5`) is exactly representable, so rational
arithmetic coincides with the Python float arithmetic on every value the
code actually computes.
-/

/-- A Python string, viewed as its list of code points. -/
abbrev PyStr := List Char

/-- Python considers these characters whitespace for `str.split()`;
`Char.isWhitespace` covers the cases relevant here (space, tab, newline,
carriage return). -/
def pySpace (c : Char) : Bool := c.isWhitespace

/-- `str.split()` with no separator: split on runs of whitespace,
discarding empty pieces.  Mirrors Python `s.split()`. -/
def pyWords : PyStr → List PyStr
  | [] => []
  | c :: cs =>
    if pySpace c then pyWords cs
    else (c :: cs.takeWhile (fun d => !pySpace d)) :: pyWords (cs.dropWhile (fun d => !pySpace d))
termination_by s => s.length
decreasing_by
  · simp only [List.length_cons]
    omega
  · simp only [List.length_cons]
    have hlen : ∀ (l : List Char), (l.dropWhile (fun d => !pySpace d)).length ≤ l.length := by
      intro l
      induction l with
      | nil => simp [List.dropWhile]
      | cons d ds ih =>
        by_cases h : (!pySpace d) = true
        · simp only [List.dropWhile, h]
          simp only [List.length_cons]
          omega
        · simp only [List.dropWhile, h]
          simp
    have := hlen cs
    omega

/-- `s.split("\n")`: split on each newline, keeping empty pieces
(`"".split("\n") == [""]`). -/
def splitNl : PyStr → List PyStr
  | [] => [[]]
  | c :: cs =>
    if c = '\n' then [] :: splitNl cs
    else
      match splitNl cs with
      | [] => [[c]]
      | l :: ls => (c :: l) :: ls

/-- `"\n".join(lines)`. -/
def joinNl : List PyStr → PyStr
  | [] => []
  | [l] => l
  | l :: ls => l ++ '\n' :: joinNl ls

/-- The greedy wrapping loop shared by `format_milestone_name` and
`format_wp_name` in `gantt.py` (lines 215–231 / 322–338): words are packed
into `current_line` while adding the next word (with a separating space)
keeps the line at 20 characters or less; otherwise the line is flushed.
`lines` and `cur` are the Python variables `lines` and `current_line`. -/
def wrapLoop : List PyStr → List PyStr → PyStr → List PyStr
  | [], lines, cur => if cur = [] then lines else lines ++ [cur]
  | w :: ws, lines, cur =>
    if cur ≠ [] ∧ (cur ++ ' ' :: w).length > 20 then
      wrapLoop ws (lines ++ [cur]) w
    else if cur ≠ [] then
      wrapLoop ws lines (cur ++ ' ' :: w)
    else
      wrapLoop ws lines w

/-- `format_milestone_name` from `gantt.py` (lines 210–233): return the
input unchanged when it has at most 20 characters, otherwise wrap its
whitespace-separated words greedily into lines of at most 20 characters
and join them with newlines. -/
def format_milestone_name (milestone_name : PyStr) : PyStr :=
  if milestone_name.length ≤ 20 then milestone_name
  else joinNl (wrapLoop (pyWords milestone_name) [] [])

/-- First-occurrence split: `s.split(pat, 1)` when `pat` occurs, as used by
`format_wp_name` with `pat = ": "`.  Returns the part before the first
occurrence and the part after it. -/
def splitFirst (pat : PyStr) (s : PyStr) : Option (PyStr × PyStr) :=
  match s with
  | [] => if pat = [] then some ([], []) else none
  | c :: cs =>
    if pat.isPrefixOf (c :: cs) then some ([], (c :: cs).drop pat.length)
    else
      match splitFirst pat cs with
      | some (pre, post) => some (c :: pre, post)
      | none => none

/-- `format_wp_name` from `gantt.py` (lines 309–340): rewrite
`"WP1: System Design"` to `"WP1\System Design"` (splitting on the first
`": "`), then apply the same 20-character greedy wrap. -/
def format_wp_name (wp_name : PyStr) : PyStr :=
  let formatted :=
    match splitFirst [':', ' '] wp_name with
    | some (pre, post) => pre ++ '\\' :: post
    | none => wp_name
  if formatted.length ≤ 20 then formatted
  else joinNl (wrapLoop (pyWords formatted) [] [])

/-!
## The Python value model used by `validate_data`

`validate_data` in `gantt.py` receives an arbitrary Python object (whatever
the loader produced), so its embedding works on a small model of Python
values: `None`, strings, ints, floats (of which only zero-ness and NaN-ness
are observable in this function), lists and dicts.
-/

/-- A Python value, as observed by `validate_data`.  A float is recorded by
the two predicates the code can apply to it (`pd.isna` and truthiness). -/
inductive Py where
  | none
  | str (s : String)
  | int (n : Int)
  | float (isNan : Bool) (isZero : Bool)
  | list (xs : List Py)
  | dict (kvs : List (String × Py))

/-- Python truthiness (`bool(v)`), as used by `if not data:`. -/
def pyTruthy : Py → Bool
  | Py.none => false
  | Py.str s => s ≠ ""
  | Py.int n => n ≠ 0
  | Py.float _ isZero => !isZero
  | Py.list xs => !xs.isEmpty
  | Py.dict kvs => !kvs.isEmpty

/-- `isinstance(v, dict)`. -/
def pyIsDict : Py → Bool
  | Py.dict _ => true
  | _ => false

/-- `item.get(col)` on a dict: the stored value, or `None` when the key is
absent (or when `item` is not a dict, which `validate_data` never reaches). -/
def pyGet (item : Py) (k : String) : Py :=
  match item with
  | Py.dict kvs => ((kvs.find? (fun kv => kv.1 == k)).map Prod.snd).getD Py.none
  | _ => Py.none

/-- `col in item.keys()` for a dict. -/
def pyHasKey (item : Py) (k : String) : Bool :=
  match item with
  | Py.dict kvs => kvs.any (fun kv => kv.1 == k)
  | _ => false

/-- The required columns of `validate_data` (`gantt.py` line 647). -/
def requiredColumns : List String := ["Task", "Work Package", "Start", "End", "Type"]

/-- `str.strip()` on the code-point list: remove leading and trailing
whitespace. -/
def pyStripL (s : PyStr) : PyStr :=
  ((s.dropWhile pySpace).reverse.dropWhile pySpace).reverse

/-- `str.strip()`: remove leading and trailing whitespace. -/
def pyStrip (s : String) : String := String.mk (pyStripL s.data)

/-- The per-cell check of `validate_data` (`gantt.py` lines 664–678):
`None`, a string that strips to empty, an empty sized container that is not
an int/float, or a NaN, are "missing"; everything else passes.  The string
branch is tested before the sized-container branch, exactly as in the
`if`/`elif` chain of the source. -/
def checkCell (i : Nat) (col : String) (v : Py) : Except String Unit :=
  let msg := "Row " ++ toString (i + 1) ++ ": Missing value for column " ++ col
  match v with
  | Py.none => Except.error msg
  | Py.str s => if pyStrip s = "" then Except.error msg else Except.ok ()
  | Py.int _ => Except.ok ()
  | Py.float isNan _ => if isNan then Except.error msg else Except.ok ()
  | Py.list xs => if xs.isEmpty then Except.error msg else Except.ok ()
  | Py.dict kvs => if kvs.isEmpty then Except.error msg else Except.ok ()

/-- The inner `for col in required_columns` loop of `validate_data`. -/
def checkCols (i : Nat) (item : Py) : List String → Except String Unit
  | [] => Except.ok ()
  | c :: cs =>
    match checkCell i c (pyGet item c) with
    | Except.error e => Except.error e
    | Except.ok _ => checkCols i item cs

/-- The outer `for i, item in enumerate(data)` loop of `validate_data`. -/
def checkItems : Nat → List Py → Except String Bool
  | _, [] => Except.ok true
  | i, item :: rest =>
    match checkCols i item requiredColumns with
    | Except.error e => Except.error e
    | Except.ok _ => checkItems (i + 1) rest

/-- `validate_data` from `gantt.py` (lines 643–681).  A raised `ValueError`
is modelled as `Except.error` carrying the message; the successful return
is `Except.ok true`. -/
def validate_data (data : Py) : Except String Bool :=
  if pyTruthy data = false then
    Except.error "No data loaded. Please check your file format."
  else
    match data with
    | Py.list items =>
      if (items.all pyIsDict) = false then
        Except.error "Data must be a list of dictionaries."
      else
        let first := items.headD (Py.dict [])
        let missing := requiredColumns.filter (fun c => !(pyHasKey first c))
        if missing.isEmpty = false then
          Except.error ("Missing required columns: " ++ String.intercalate ", " missing)
        else
          checkItems 0 items
    | _ => Except.error "Data must be a list of dictionaries."

/-- Spec-side reading of claim C2: a cell is "missing" when it is `None`,
the empty string, NaN, or an empty sequence.  (Unlike the code, this does
not treat a whitespace-only string as missing.) -/
def claimMissingCell (v : Py) : Bool :=
  match v with
  | Py.none => true
  | Py.str s => s = ""
  | Py.float isNan _ => isNan
  | Py.list xs => xs.isEmpty
  | Py.dict kvs => kvs.isEmpty
  | Py.int _ => false

/-- Spec-side reading of claim C2: the inputs on which, according to the
claim, `validate_data` returns `True` rather than raising. -/
def claimGoodC2 (d : Py) : Bool :=
  pyTruthy d &&
  (match d with
   | Py.list items =>
     items.all pyIsDict &&
     requiredColumns.all (fun c => pyHasKey (items.headD (Py.dict [])) c) &&
     items.all (fun item => requiredColumns.all (fun c => !claimMissingCell (pyGet item c)))
   | _ => false)

/-- Cell-level acceptance condition actually enforced by the code: like
`claimMissingCell` but a string is missing when it strips to empty. -/
def codeMissingCell (v : Py) : Bool :=
  match v with
  | Py.none => true
  | Py.str s => pyStrip s = ""
  | Py.float isNan _ => isNan
  | Py.list xs => xs.isEmpty
  | Py.dict kvs => kvs.isEmpty
  | Py.int _ => false

/-- The amended acceptance condition of claim C2 (whitespace-only strings
also count as missing). -/
def amendedGoodC2 (d : Py) : Bool :=
  pyTruthy d &&
  (match d with
   | Py.list items =>
     items.all pyIsDict &&
     requiredColumns.all (fun c => pyHasKey (items.headD (Py.dict [])) c) &&
     items.all (fun item => requiredColumns.all (fun c => !codeMissingCell (pyGet item c)))
   | _ => false)

/-- Claim-side reading of C1: every record of the list has `Start ≤ End`
(comparing the integer month values). -/
def recStartLeEnd (item : Py) : Bool :=
  match pyGet item "Start", pyGet item "End" with
  | Py.int s, Py.int e => s ≤ e
  | _, _ => true

/-- Claim-side reading of C1, lifted to the whole input. -/
def allStartLeEnd (d : Py) : Bool :=
  match d with
  | Py.list items => items.all recStartLeEnd
  | _ => true

/-!
## The converter `csv_to_yaml.py`
-/

/-- A data row of the tasks CSV read by `convert_csv_to_yaml`
(`csv_to_yaml.py` lines 156–179).  `workPackage = none` models a NaN cell
(`pd.notna` false). -/
structure CsvRow where
  taskNumber : String
  taskName : String
  startMonth : Int
  endMonth : Int
  workPackage : Option String

/-- A task record in the schema consumed by the renderer: the dictionary
with keys `Task`, `Work Package`, `Start`, `End`, `Type` and the optional
`Related WPs` (absent or NaN is `none`). -/
structure GRecord where
  task : String
  workPackage : String
  startMonth : Int
  endMonth : Int
  typ : String
  relatedWPs : Option String
deriving Repr, DecidableEq

/-- The per-row conversion inside `convert_csv_to_yaml` (`csv_to_yaml.py`
lines 156–179): strip and join task number and name, default the work
package when the CSV cell is NaN, and set `Type` to the configured default
unless start and end month coincide, in which case it is `"Milestone"`. -/
def convertRow (task_type : String) (r : CsvRow) : GRecord :=
  let start_month := r.startMonth
  let end_month := r.endMonth
  let csv_work_package :=
    match r.workPackage with
    | some w => pyStrip w
    | Option.none => "WP1: Default"
  { task := pyStrip r.taskNumber ++ " - " ++ pyStrip r.taskName
    workPackage := csv_work_package
    startMonth := start_month
    endMonth := end_month
    typ := if start_month ≠ end_month then task_type else "Milestone"
    relatedWPs := Option.none }

/-- A row of the milestones CSV read by `load_milestones` (`csv_to_yaml.py`
lines 69–117). -/
structure MsRow where
  number : String
  name : String
  dueMonth : Int
  relatedWPs : Option String

/-- The per-row conversion of `load_milestones`: a milestone record with
identical start and end month and type `"Milestone"`. -/
def loadMilestoneRow (r : MsRow) : GRecord :=
  { task := pyStrip r.number ++ " - " ++ pyStrip r.name
    workPackage := "Milestones"
    startMonth := r.dueMonth
    endMonth := r.dueMonth
    typ := "Milestone"
    relatedWPs := r.relatedWPs.map pyStrip }

/-- `load_milestones` over the whole milestones CSV. -/
def load_milestones (rows : List MsRow) : List GRecord :=
  rows.map loadMilestoneRow

/-- The record list produced by `convert_csv_to_yaml`: the converted task
rows followed by the milestones of the optional milestones file. -/
def convert_csv_to_yaml (task_type : String) (rows : List CsvRow)
    (milestoneRows : List MsRow) : List GRecord :=
  rows.map (convertRow task_type) ++ load_milestones milestoneRows

/-!
## The renderer `create_gantt_chart`

The matplotlib calls are modelled by lists of drawing primitives, emitted
in the order the source emits them.  The y-limits that matplotlib has
auto-scaled at the moment the striped milestones are drawn
(`ax.get_ylim()`, line 161) depend on matplotlib internals, so they are a
parameter `(yBottom, yTop)` of the embedding.
-/

/-- A color as the renderer distinguishes them: the `i`-th of the `n`
samples `plt.cm.Set3(np.linspace(0, 1, n))`, or a named matplotlib color
such as `"gray"` and `"black"`. -/
inductive RColor where
  | set3 (i n : Nat)
  | named (s : String)
deriving Repr, DecidableEq

/-- The traversal behind `uniqueFirst`: keep each value not seen before,
in order. -/
def uniqueFirstAux (seen : List String) : List String → List String
  | [] => []
  | x :: xs =>
    if x ∈ seen then uniqueFirstAux seen xs
    else x :: uniqueFirstAux (seen ++ [x]) xs

/-- `pd.unique` / `df["Work Package"].unique()`: the distinct values in
first-occurrence order. -/
def uniqueFirst (l : List String) : List String := uniqueFirstAux [] l

/-- `df[df["Type"] == "Task"]` (line 43), in dataframe order. -/
def tasksOf (data : List GRecord) : List GRecord :=
  data.filter (fun r => r.typ == "Task")

/-- `df[df["Type"] == "Milestone"]` (line 44), in dataframe order. -/
def milestonesOf (data : List GRecord) : List GRecord :=
  data.filter (fun r => r.typ == "Milestone")

/-- `work_packages = df["Work Package"].unique()` (line 50). -/
def workPackages (data : List GRecord) : List String :=
  uniqueFirst (data.map (fun r => r.workPackage))

/-- `wp_colors = dict(zip(work_packages, plt.cm.Set3(np.linspace(0, 1,
len(work_packages)))))` (lines 51–52): the work package at index `i` gets
the `i`-th palette sample. -/
def wpColor (wps : List String) (wp : String) : RColor :=
  RColor.set3 (wps.indexOf wp) wps.length

/-- One horizontal task bar together with the task text drawn inside (or
beside) it; `wp` and `task` record which row of which work package the bar
was drawn for (the loop variables at lines 60 and 68). -/
structure Bar where
  wp : String
  task : String
  y : Int
  left : Int
  width : Int
  color : RColor
deriving Repr, DecidableEq

/-- The inner `for _, task in wp_tasks.iterrows()` loop (lines 68–119):
one bar per task at consecutive integer `y_pos`. -/
def barsFrom (wp : String) (c : RColor) : Int → List GRecord → List Bar
  | _, [] => []
  | y, t :: ts =>
    { wp := wp, task := t.task, y := y, left := t.startMonth,
      width := t.endMonth - t.startMonth, color := c } :: barsFrom wp c (y + 1) ts

/-- The outer `for wp in work_packages` loop (lines 60–122): lay out each
work package block, skipping packages with no task rows, and record
`wp_y_ranges[wp] = (wp_start_y, y_pos - 1)`.  Returns the bars, the ranges
in insertion order, and the final `y_pos`. -/
def layoutAux (tasks : List GRecord) (col : String → RColor) :
    List String → Int → List Bar × List (String × Int × Int) × Int
  | [], y => ([], [], y)
  | wp :: rest, y =>
    let wpTasks := tasks.filter (fun t => t.workPackage == wp)
    if wpTasks.isEmpty then layoutAux tasks col rest y
    else
      let bars := barsFrom wp (col wp) y wpTasks
      let y2 := y + wpTasks.length
      let out := layoutAux tasks col rest y2
      (bars ++ out.1, (wp, y, y2 - 1) :: out.2.1, out.2.2)

/-- `a.isPrefixOf b` on character lists, written out. -/
def isPre : PyStr → PyStr → Bool
  | [], _ => true
  | _ :: _, [] => false
  | a :: as, b :: bs => a == b && isPre as bs

/-- Python `a in b` for strings: `a` occurs in `b` as a contiguous
substring. -/
def isSubstr (a b : String) : Bool := go a.data b.data
where
  go (a : PyStr) : PyStr → Bool
    | [] => a.isEmpty
    | c :: cs => isPre a (c :: cs) || go a cs

/-- The `for full_wp in wp_colors.keys(): if wp_name in full_wp: ...;
break` loop (lines 142–145): scan the work packages in chart order and stop
at the first whose full name contains the identifier. -/
def findWpColor (col : String → RColor) : List String → String → Option RColor
  | [], _ => Option.none
  | fullWp :: rest, wpName =>
    if isSubstr wpName fullWp then some (col fullWp) else findWpColor col rest wpName

/-- `s.split(",")` on the code-point list: split at every comma, keeping
empty pieces. -/
def splitComma : PyStr → List PyStr
  | [] => [[]]
  | c :: cs =>
    if c = ',' then [] :: splitComma cs
    else
      match splitComma cs with
      | [] => [[c]]
      | l :: ls => (c :: l) :: ls

/-- The identifier-resolution loop of the milestone drawing code (lines
133–145): split `Related WPs` on commas, strip each identifier, and append
the color found for it (identifiers contained in no package name append
nothing). -/
def resolveColors (wps : List String) (col : String → RColor) (rel : String) :
    List RColor :=
  let related_wps := (splitComma rel.data).map (fun p => pyStrip (String.mk p))
  related_wps.filterMap (fun wpName => findWpColor col wps wpName)

/-- Python `int()` truncation toward zero on a rational. -/
def pyIntTrunc (q : ℚ) : Int := if q ≥ 0 then ⌊q⌋ else -⌊-q⌋

/-- `num_stripes = int(total_height / stripe_height) + 1` with
`stripe_height = 0.2` (lines 165–166). -/
def numStripes (yBottom yTop : ℚ) : Int := pyIntTrunc ((yTop - yBottom) / (1/5)) + 1

/-- A vertical line segment at month `x`, spanning the fraction
`[ymin, ymax]` of the axis height (`ax.axvline`). -/
structure VSeg where
  x : Int
  ymin : ℚ
  ymax : ℚ
  color : RColor
deriving Repr, DecidableEq

/-- The striped-milestone loop (lines 164–185): stripes of height 0.2 from
the bottom of the axis, colors cycling through `milestone_colors`, each
stripe clipped to the top and emitted only while it starts below the top. -/
def stripeSegs (x : Int) (yBottom yTop : ℚ) (cs : List RColor) : List VSeg :=
  let totalHeight := yTop - yBottom
  (List.range (numStripes yBottom yTop).toNat).filterMap (fun (i : Nat) =>
    let yStart := yBottom + (i : ℚ) * (1/5)
    let yEnd := min (yStart + 1/5) yTop
    if yStart < yTop then
      some { x := x, ymin := (yStart - yBottom) / totalHeight,
             ymax := (yEnd - yBottom) / totalHeight,
             color := cs.getD (i % cs.length) (RColor.named "gray") }
    else Option.none)

/-- The per-milestone drawing step (lines 128–207): gray when there is no
usable `Related WPs` value; otherwise resolve the identifiers and draw a
solid line (one resolved color), fine stripes (several resolved colors), or
gray (none resolved).  In every case the x position is the milestone start
month. -/
def milestoneSegs (wps : List String) (col : String → RColor)
    (yBottom yTop : ℚ) (m : GRecord) : List VSeg :=
  match m.relatedWPs with
  | Option.none => [{ x := m.startMonth, ymin := 0, ymax := 1, color := RColor.named "gray" }]
  | some rel =>
    let milestone_colors := resolveColors wps col rel
    if milestone_colors.length = 1 then
      [{ x := m.startMonth, ymin := 0, ymax := 1,
         color := milestone_colors.getD 0 (RColor.named "gray") }]
    else if milestone_colors.length > 1 then
      stripeSegs m.startMonth yBottom yTop milestone_colors
    else
      [{ x := m.startMonth, ymin := 0, ymax := 1, color := RColor.named "gray" }]

/-- Lexicographic `<` on code points, Python string comparison. -/
def strLtB : PyStr → PyStr → Bool
  | [], [] => false
  | [], _ :: _ => true
  | _ :: _, [] => false
  | a :: as, b :: bs =>
    if a.toNat < b.toNat then true
    else if b.toNat < a.toNat then false
    else strLtB as bs

/-- The `≤` order on the tuples `(Start_Month, Task)` that
`milestone_positions.sort()` (line 241) sorts: Python tuple comparison. -/
def pairLe (p q : Int × String) : Bool :=
  if p.1 < q.1 then true
  else if q.1 < p.1 then false
  else !(strLtB q.2.data p.2.data)

/-- Insert into an ascending list, before the first element that is
greater or equal — the standard stable insertion. -/
def insertSorted (x : Int × String) : List (Int × String) → List (Int × String)
  | [] => [x]
  | y :: ys => if pairLe x y then x :: y :: ys else y :: insertSorted x ys

/-- Ascending stable sort by the tuple order.  Python guarantees
`list.sort()` is a stable ascending sort, and a stable sort by a total
order is extensionally unique, so insertion sort computes exactly what
`milestone_positions.sort()` computes (ties are identical tuples here, so
even stability is unobservable). -/
def pySort : List (Int × String) → List (Int × String)
  | [] => []
  | p :: ps => insertSorted p (pySort ps)

/-- `milestone_positions` after the sort (lines 238–241): the
`(Start_Month, Task)` tuples of the milestones in ascending tuple order. -/
def milestonePositions (ms : List GRecord) : List (Int × String) :=
  pySort (ms.map (fun m => (m.startMonth, m.task)))

/-- The staggering rule of lines 247–256: a milestone closer than 4 months
to its predecessor in sorted order is pushed to one of three lower rows
(`base_y - ((i % 3) + 1) * 1.5` with `base_y = -1`); otherwise it sits at
the base height `base_y - 0.5`. -/
def labelY (ms : List (Int × String)) (i : Nat) : ℚ :=
  if 0 < i ∧ ((ms.getD i (0, "")).1 - (ms.getD (i - 1) (0, "")).1).natAbs < 4 then
    -1 - (((i % 3) + 1 : Nat) : ℚ) * (3/2)
  else
    -1 - 1/2

/-- One milestone label text (lines 261–277): drawn at the milestone month,
at the staggered height, with the wrapped name. -/
structure MLabel where
  x : Int
  y : ℚ
  text : PyStr
deriving Repr, DecidableEq

/-- The label-emitting traversal of the sorted positions: the `i`-th sorted
milestone gets its label at its own month, at height `labelY`, with the
wrapped name. -/
def labelsAux (ps : List (Int × String)) : Nat → List (Int × String) → List MLabel
  | _, [] => []
  | i, p :: rest =>
    { x := p.1, y := labelY ps i, text := format_milestone_name p.2.data } ::
      labelsAux ps (i + 1) rest

/-- The milestone label pass (lines 236–277). -/
def milestoneLabels (ms : List GRecord) : List MLabel :=
  let positions := milestonePositions ms
  labelsAux positions 0 positions

/-- A work-package decoration: a brace line segment (`ax.plot`, lines
367–383) or the tilted work-package label (`ax.text`, lines 349–359 and
386–396). -/
inductive WpCmd where
  | seg (x1 y1 x2 y2 : ℚ)
  | label (x y : ℚ) (text : PyStr) (color : RColor)
deriving Repr, DecidableEq

/-- The `for wp, (start_y, end_y) in wp_y_ranges.items()` loop (lines
342–396): a single-task block gets only a label; a multi-task block gets
the three brace segments (top tick, vertical line from `start_y - 0.4` to
`end_y + 0.4`, bottom tick) and a label at the block middle. -/
def wpDecor (col : String → RColor) (r : String × Int × Int) : List WpCmd :=
  let wp := r.1
  let startY := r.2.1
  let endY := r.2.2
  let formatted := format_wp_name wp.data
  if startY = endY then
    [WpCmd.label (-12/10) (startY : ℚ) formatted (col wp)]
  else
    [WpCmd.seg (-8/10) ((startY : ℚ) - 4/10) (-6/10) ((startY : ℚ) - 4/10),
     WpCmd.seg (-8/10) ((startY : ℚ) - 4/10) (-8/10) ((endY : ℚ) + 4/10),
     WpCmd.seg (-8/10) ((endY : ℚ) + 4/10) (-6/10) ((endY : ℚ) + 4/10),
     WpCmd.label (-12/10) (((startY : ℚ) + (endY : ℚ)) / 2) formatted (col wp)]

/-- Everything `create_gantt_chart` draws, grouped by pass. -/
structure Rendered where
  bars : List Bar
  wpRanges : List (String × Int × Int)
  msegs : List VSeg
  mlabels : List MLabel
  wpdecor : List WpCmd
deriving Repr, DecidableEq

/-- `create_gantt_chart` from `gantt.py` (lines 20–399), as the drawing
primitives it emits.  `yBottom`/`yTop` are the matplotlib-internal
auto-scaled y-limits read by `ax.get_ylim()` when a striped milestone is
drawn (line 161). -/
def create_gantt_chart (data : List GRecord) (yBottom yTop : ℚ) : Rendered :=
  let wps := workPackages data
  let col := wpColor wps
  let L := layoutAux (tasksOf data) col wps 0
  { bars := L.1
    wpRanges := L.2.1
    msegs := (milestonesOf data).flatMap (milestoneSegs wps col yBottom yTop)
    mlabels := milestoneLabels (milestonesOf data)
    wpdecor := L.2.1.flatMap (wpDecor col) }

/-!
## Claim-side helper definitions and concrete example data
-/

/-- Whether a `validate_data` result is a raised `ValueError`. -/
def exceptIsError : Except String Bool → Bool
  | Except.error _ => true
  | Except.ok _ => false

/-- Spec-side reading of claim C8: the distinct work packages that the
listed identifiers resolve to (each identifier resolving to the first
package name containing it). -/
def resolvedPackages (wps : List String) (rel : String) : List String :=
  uniqueFirst ((((splitComma rel.data).map (fun p => pyStrip (String.mk p))).filterMap
    (fun wpName => wps.find? (fun fullWp => isSubstr wpName fullWp))))

/-- The data a bar carries about the record it was drawn for (everything
but the layout-assigned `y` and the palette color). -/
def barInfo (b : Bar) : String × String × Int × Int := (b.task, b.wp, b.left, b.width)

/-- The same data read off a task record. -/
def taskInfo (t : GRecord) : String × String × Int × Int :=
  (t.task, t.workPackage, t.startMonth, t.endMonth - t.startMonth)

/-- The Python dictionary a `GRecord` denotes (as produced by the YAML/CSV
loaders): the five required keys, plus `Related WPs` when present. -/
def pyOfRecord (r : GRecord) : Py :=
  Py.dict ([("Task", Py.str r.task), ("Work Package", Py.str r.workPackage),
            ("Start", Py.int r.startMonth), ("End", Py.int r.endMonth),
            ("Type", Py.str r.typ)] ++
    (match r.relatedWPs with
     | some s => [("Related WPs", Py.str s)]
     | Option.none => []))

/-- A record list as the Python object handed to `validate_data`. -/
def pyOfData (data : List GRecord) : Py := Py.list (data.map pyOfRecord)

/-- C1 counterexample input: one fully populated record with `Start = 5`
and `End = 2`. -/
def c1Data : Py :=
  Py.list [Py.dict [("Task", Py.str "A"), ("Work Package", Py.str "WP1"),
                    ("Start", Py.int 5), ("End", Py.int 2), ("Type", Py.str "Task")]]

/-- A fully populated single-record input with arbitrary start and end
months. -/
def c1DataSE (s e : Int) : Py :=
  Py.list [Py.dict [("Task", Py.str "A"), ("Work Package", Py.str "WP1"),
                    ("Start", Py.int s), ("End", Py.int e), ("Type", Py.str "Task")]]

/-- C2 counterexample input: the `Task` cell is a whitespace-only string
(not `None`, not empty, not NaN, not an empty sequence). -/
def c2Data : Py :=
  Py.list [Py.dict [("Task", Py.str " "), ("Work Package", Py.str "WP1"),
                    ("Start", Py.int 1), ("End", Py.int 2), ("Type", Py.str "Task")]]

/-- C2 witness input: a record `validate_data` accepts. -/
def c2GoodData : Py :=
  Py.list [Py.dict [("Task", Py.str "Kickoff"), ("Work Package", Py.str "WP2: Dev"),
                    ("Start", Py.int 1), ("End", Py.int 3), ("Type", Py.str "Task")]]

/-- C3 counterexample row: start and end months differ. -/
def c3Row : CsvRow :=
  { taskNumber := "T1", taskName := "Alpha", startMonth := 1, endMonth := 2,
    workPackage := some "WP1: Design" }

/-- C3 witness row: start and end months coincide. -/
def c3wRow : CsvRow :=
  { taskNumber := "T2", taskName := "Beta", startMonth := 3, endMonth := 3,
    workPackage := some "WP1: Design" }

/-- The work-package list of the C8/C9 examples. -/
def c8Wps : List String := ["WP1: Design"]

/-- C8 counterexample milestone: two identifiers that both resolve to the
single package `"WP1: Design"`. -/
def c8Ms : GRecord :=
  { task := "M1 - Review", workPackage := "Milestones", startMonth := 3,
    endMonth := 3, typ := "Milestone", relatedWPs := some "WP1, WP1" }

/-- The single full-height solid line that claim C8 predicts for a
milestone whose identifiers resolve to exactly one package. -/
def c8ClaimedSegs : List VSeg :=
  [{ x := 3, ymin := 0, ymax := 1, color := wpColor c8Wps "WP1: Design" }]

/-- C8 witness milestone: exactly one identifier, resolving to one
package. -/
def c8wMs : GRecord :=
  { task := "M2 - Ship", workPackage := "Milestones", startMonth := 5,
    endMonth := 5, typ := "Milestone", relatedWPs := some "WP1" }

/-- Chart data for the C4/C5/C10 witnesses: two tasks in one work package,
one task in another, a milestone, and (for C10) a record of an unknown
type. -/
def wData : List GRecord :=
  [{ task := "Plan", workPackage := "WP1: Core", startMonth := 1, endMonth := 3,
     typ := "Task", relatedWPs := Option.none },
   { task := "Build", workPackage := "WP1: Core", startMonth := 3, endMonth := 6,
     typ := "Task", relatedWPs := Option.none },
   { task := "Review", workPackage := "WP2: QA", startMonth := 6, endMonth := 7,
     typ := "Task", relatedWPs := Option.none },
   { task := "Gate", workPackage := "Milestones", startMonth := 4, endMonth := 4,
     typ := "Milestone", relatedWPs := some "WP1" },
   { task := "Note", workPackage := "WP2: QA", startMonth := 2, endMonth := 2,
     typ := "Remark", relatedWPs := Option.none }]

/-- Milestone records for the C7 witness: two milestones 2 months apart. -/
def c7Ms : List GRecord :=
  [{ task := "Beta", workPackage := "Milestones", startMonth := 5, endMonth := 5,
     typ := "Milestone", relatedWPs := Option.none },
   { task := "Alpha", workPackage := "Milestones", startMonth := 3, endMonth := 3,
     typ := "Milestone", relatedWPs := Option.none }]

/-!
## Theorems

Helper lemmas first, then one theorem per claim (with witnesses and
counterexamples where the claim status requires them).
-/

/-- A filter for "bad" elements is empty exactly when every element is
good. -/
theorem filter_not_isEmpty_iff_all {α : Type} (p : α → Bool) (l : List α) :
    (l.filter (fun a => !(p a))).isEmpty = l.all p := by
  induction l with
  | nil => rfl
  | cons a as ih =>
    by_cases h : p a
    · simp [List.filter, List.all, h, ih]
    · simp [List.filter, List.all, h]

/-- The cell check succeeds exactly on the cells the code considers
present. -/
theorem checkCell_ok_iff (i : Nat) (c : String) (v : Py) :
    checkCell i c v = Except.ok () ↔ codeMissingCell v = false := by
  cases v <;> simp [checkCell, codeMissingCell]

/-- The column loop succeeds exactly when every required cell of the item
is present. -/
theorem checkCols_ok_iff (i : Nat) (item : Py) (cols : List String) :
    checkCols i item cols = Except.ok () ↔
      cols.all (fun c => !codeMissingCell (pyGet item c)) = true := by
  induction cols with
  | nil => simp [checkCols]
  | cons c cs ih =>
    simp only [checkCols, List.all_cons, Bool.and_eq_true]
    rcases h : checkCell i c (pyGet item c) with e | u
    · constructor
      · intro h2
        simp at h2
      · rintro ⟨h1, _⟩
        rw [Bool.not_eq_true', ← checkCell_ok_iff i c] at h1
        rw [h] at h1
        simp at h1
    · have := (checkCell_ok_iff i c (pyGet item c)).mp (by rw [h])
      simp [this, ih]

/-- The row loop succeeds exactly when every item passes all required-cell
checks. -/
theorem checkItems_ok_iff (items : List Py) (i : Nat) :
    checkItems i items = Except.ok true ↔
      items.all (fun item =>
        requiredColumns.all (fun c => !codeMissingCell (pyGet item c))) = true := by
  induction items generalizing i with
  | nil => simp [checkItems]
  | cons item rest ih =>
    simp only [checkItems, List.all_cons, Bool.and_eq_true]
    rcases h : checkCols i item requiredColumns with e | u
    · constructor
      · intro h2
        simp at h2
      · rintro ⟨h1, _⟩
        rw [← checkCols_ok_iff i] at h1
        rw [h] at h1
        simp at h1
    · have := (checkCols_ok_iff i item requiredColumns).mp (by rw [h])
      simp [this, ih]


/-- The full acceptance characterization of `validate_data`, shared by the
claims about validation. -/
theorem validate_iff_amendedGood (d : Py) :
    validate_data d = Except.ok true ↔ amendedGoodC2 d = true := by
  unfold validate_data amendedGoodC2
  cases d with
  | none => simp [pyTruthy]
  | str s => by_cases h : pyTruthy (Py.str s) = false <;> simp [h]
  | int n => by_cases h : pyTruthy (Py.int n) = false <;> simp [h]
  | float a b => by_cases h : pyTruthy (Py.float a b) = false <;> simp [h]
  | dict kvs => by_cases h : pyTruthy (Py.dict kvs) = false <;> simp [h]
  | list items =>
    dsimp only
    by_cases h : pyTruthy (Py.list items) = false
    · simp [h]
    · rw [Bool.not_eq_false] at h
      rw [if_neg (by simp [h])]
      by_cases hd : items.all pyIsDict = false
      · rw [if_pos (by simp [hd])]
        simp [h, hd]
      · rw [Bool.not_eq_false] at hd
        rw [if_neg (by simp [hd])]
        by_cases hm : (requiredColumns.filter
            (fun c => !(pyHasKey (items.headD (Py.dict [])) c))).isEmpty = false
        · rw [if_pos hm]
          have hall : requiredColumns.all
              (fun c => pyHasKey (items.headD (Py.dict [])) c) = false := by
            rw [← filter_not_isEmpty_iff_all]
            exact hm
          rw [h, hd, hall]
          simp
        · rw [if_neg hm]
          rw [Bool.not_eq_false] at hm
          have hall : requiredColumns.all
              (fun c => pyHasKey (items.headD (Py.dict [])) c) = true := by
            rw [← filter_not_isEmpty_iff_all]
            exact hm
          rw [checkItems_ok_iff items 0, h, hd, hall]
          simp

/-- C2, amended: `validate_data` returns `True` exactly on truthy lists of
dictionaries whose first record carries every required column and in which
no record has a `None`, empty-or-whitespace-only string, NaN, or
empty-sequence value for a required column (a key absent from a later
record reads as `None` via `.get`); on every other input it raises
`ValueError`.  Being a pure function of its argument, it never modifies
the data. -/
theorem c2_amended (d : Py) :
    validate_data d = Except.ok true ↔ amendedGoodC2 d = true :=
  validate_iff_amendedGood d

/-- C2, counterexample: on a record whose `Task` cell is the
whitespace-only string `" "` — which is none of `None`, the empty string,
NaN, or an empty sequence, so the claim says `validate_data` returns
`True` — the code raises `ValueError`. -/
theorem c2_counterexample :
    claimGoodC2 c2Data = true ∧ exceptIsError (validate_data c2Data) = true := by
  constructor
  · rfl
  · rfl

/-- C2, witness: a concrete fully populated record satisfies the amended
acceptance condition, and `c2_amended` turns that into the accepting run
of `validate_data`. -/
theorem c2_witness :
    amendedGoodC2 c2GoodData = true ∧ validate_data c2GoodData = Except.ok true := by
  refine ⟨rfl, ?_⟩
  exact (c2_amended c2GoodData).mpr rfl

/-- C1, counterexample: a fully populated record with `Start = 5`,
`End = 2` is accepted by `validate_data`, so acceptance does not imply
`Start ≤ End`. -/
theorem c1_counterexample :
    validate_data c1Data = Except.ok true ∧ allStartLeEnd c1Data = false := by
  constructor
  · rfl
  · rfl

/-- C1, amended: `validate_data` checks only that required values are
present and non-empty; it accepts a fully populated record for every pair
of start and end months, in particular when `Start > End`, so the
validation step does not enforce `start ≤ end`. -/
theorem c1_amended (s e : Int) : validate_data (c1DataSE s e) = Except.ok true := by
  rfl

/-- C3, counterexample: when the converter is configured with the default
task type `"Milestone"` (`--task-type Milestone`, an allowed choice), a row
whose start and end months differ is also emitted with type `"Milestone"`,
so "Type is Milestone iff start month equals end month" fails. -/
theorem c3_counterexample :
    (convertRow "Milestone" c3Row).typ = "Milestone" ∧
      c3Row.startMonth ≠ c3Row.endMonth := by
  constructor
  · rfl
  · decide

/-- C3, amended: a converted row has type `"Milestone"` when its start and
end months coincide and the configured default task type otherwise; hence
whenever the configured default type is not `"Milestone"` (in particular
for the default `"Task"`), the emitted type is `"Milestone"` iff the
months are equal. -/
theorem c3_amended (task_type : String) (r : CsvRow) (h : task_type ≠ "Milestone") :
    (convertRow task_type r).typ = (if r.startMonth = r.endMonth then "Milestone" else task_type)
      ∧ ((convertRow task_type r).typ = "Milestone" ↔ r.startMonth = r.endMonth) := by
  unfold convertRow
  by_cases he : r.startMonth = r.endMonth
  · simp [he]
  · simp [he, h]

/-- C3, witness: the amended claim applied with the default type `"Task"`
to a row with equal months. -/
theorem c3_witness :
    ("Task" : String) ≠ "Milestone" ∧
      ((convertRow "Task" c3wRow).typ = "Milestone" ↔ c3wRow.startMonth = c3wRow.endMonth) := by
  refine ⟨by decide, ?_⟩
  exact (c3_amended "Task" c3wRow (by decide)).2

/-- C9: each `Related WPs` identifier is resolved by the loop-with-break to
the first work package (in chart order) whose full name contains it as a
substring — `List.find?` being the first-match search — and the whole
resolution maps this over the stripped comma-separated identifiers;
concretely, identifier `"WP1"` against the package list
`["WP10: Infrastructure", "WP1: Design"]` picks `"WP10: Infrastructure"`,
the first containing name. -/
theorem c9_resolution :
    (∀ (col : String → RColor) (wps : List String) (wpName : String),
        findWpColor col wps wpName =
          (wps.find? (fun fullWp => isSubstr wpName fullWp)).map col) ∧
    (∀ (col : String → RColor) (wps : List String) (rel : String),
        resolveColors wps col rel =
          ((splitComma rel.data).map (fun p => pyStrip (String.mk p))).filterMap
            (fun wpName => (wps.find? (fun fullWp => isSubstr wpName fullWp)).map col)) ∧
    findWpColor (wpColor ["WP10: Infrastructure", "WP1: Design"])
        ["WP10: Infrastructure", "WP1: Design"] "WP1" =
      some (wpColor ["WP10: Infrastructure", "WP1: Design"] "WP10: Infrastructure") := by
  have hfind : ∀ (col : String → RColor) (wps : List String) (wpName : String),
      findWpColor col wps wpName =
        (wps.find? (fun fullWp => isSubstr wpName fullWp)).map col := by
    intro col wps wpName
    induction wps with
    | nil => rfl
    | cons w rest ih =>
      by_cases h : isSubstr wpName w
      · simp [findWpColor, List.find?, h]
      · simp only [Bool.not_eq_true] at h
        simp [findWpColor, List.find?, h, ih]
  refine ⟨hfind, ?_, ?_⟩
  · intro col wps rel
    unfold resolveColors
    rw [List.filterMap_congr]
    intro a _
    exact hfind col wps a
  · decide

theorem dropWhile_len_le {α : Type} (p : α → Bool) (l : List α) :
    (l.dropWhile p).length ≤ l.length := by
  induction l with
  | nil => simp [List.dropWhile]
  | cons d ds ih =>
    by_cases h : p d = true
    · simp only [List.dropWhile, h]
      simp only [List.length_cons]
      omega
    · simp only [List.dropWhile, h]
      simp

theorem takeWhile_sep {α : Type} (p : α → Bool) (sep : α) (hsep : p sep = false) :
    ∀ (a b : List α), (a ++ sep :: b).takeWhile p = a.takeWhile p := by
  intro a b
  induction a with
  | nil => simp [List.takeWhile, hsep]
  | cons x a' ih =>
    by_cases h : p x = true
    · simp [List.takeWhile, h, ih]
    · simp only [Bool.not_eq_true] at h
      simp [List.takeWhile, h]

theorem dropWhile_sep {α : Type} (p : α → Bool) (sep : α) (hsep : p sep = false) :
    ∀ (a b : List α), (a ++ sep :: b).dropWhile p = a.dropWhile p ++ sep :: b := by
  intro a b
  induction a with
  | nil => simp [List.dropWhile, hsep]
  | cons x a' ih =>
    by_cases h : p x = true
    · simp [List.dropWhile, h, ih]
    · simp only [Bool.not_eq_true] at h
      simp [List.dropWhile, h]

/-- Splitting on whitespace distributes over a whitespace separator. -/
theorem pyWords_append_sep : ∀ (a : PyStr) (b : PyStr) (sep : Char),
    pySpace sep = true → pyWords (a ++ sep :: b) = pyWords a ++ pyWords b
  | [], b, sep, hsep => by simp [pyWords, hsep]
  | x :: a', b, sep, hsep => by
    by_cases h : pySpace x = true
    · have h1 : pyWords ((x :: a') ++ sep :: b) = pyWords (a' ++ sep :: b) := by
        simp [pyWords, h]
      have h2 : pyWords (x :: a') = pyWords a' := by
        simp [pyWords, h]
      rw [h1, h2, pyWords_append_sep a' b sep hsep]
    · have hps : (fun d => !pySpace d) sep = false := by simp [hsep]
      have h1 : pyWords ((x :: a') ++ sep :: b) =
          (x :: (a' ++ sep :: b).takeWhile (fun d => !pySpace d)) ::
            pyWords ((a' ++ sep :: b).dropWhile (fun d => !pySpace d)) := by
        simp [pyWords, h]
      have h2 : pyWords (x :: a') =
          (x :: a'.takeWhile (fun d => !pySpace d)) ::
            pyWords (a'.dropWhile (fun d => !pySpace d)) := by
        simp [pyWords, h]
      rw [h1, h2, takeWhile_sep _ sep hps, dropWhile_sep _ sep hps,
        pyWords_append_sep (a'.dropWhile (fun d => !pySpace d)) b sep hsep]
      simp
termination_by a => a.length
decreasing_by
  · simp only [List.length_cons]
    omega
  · simp only [List.length_cons]
    have := dropWhile_len_le (fun d => !pySpace d) a'
    omega

/-- Every word produced by `pyWords` is nonempty and whitespace-free. -/
theorem pyWords_good : ∀ (s : PyStr), ∀ w ∈ pyWords s, w ≠ [] ∧ ∀ c ∈ w, pySpace c = false
  | [] => by simp [pyWords]
  | c :: cs => by
    by_cases h : pySpace c = true
    · have h1 : pyWords (c :: cs) = pyWords cs := by simp [pyWords, h]
      rw [h1]
      exact pyWords_good cs
    · have h1 : pyWords (c :: cs) =
          (c :: cs.takeWhile (fun d => !pySpace d)) ::
            pyWords (cs.dropWhile (fun d => !pySpace d)) := by
        simp [pyWords, h]
      rw [h1]
      intro w hw
      rcases List.mem_cons.mp hw with h2 | h2
      · subst h2
        refine ⟨by simp, ?_⟩
        intro x hx
        rcases List.mem_cons.mp hx with h3 | h3
        · subst h3
          simpa using h
        · have := List.mem_takeWhile_imp h3
          simpa using this
      · exact pyWords_good (cs.dropWhile (fun d => !pySpace d)) w h2
termination_by s => s.length
decreasing_by
  · simp only [List.length_cons]
    omega
  · simp only [List.length_cons]
    have := dropWhile_len_le (fun d => !pySpace d) cs
    omega

/-- A single nonempty whitespace-free word splits to itself. -/
theorem pyWords_single (w : PyStr) (hne : w ≠ [])
    (hall : ∀ c ∈ w, pySpace c = false) : pyWords w = [w] := by
  cases w with
  | nil => exact absurd rfl hne
  | cons c cs =>
    have hc : pySpace c = false := hall c (by simp)
    have h1 : pyWords (c :: cs) =
        (c :: cs.takeWhile (fun d => !pySpace d)) ::
          pyWords (cs.dropWhile (fun d => !pySpace d)) := by
      simp [pyWords, hc]
    have ht : cs.takeWhile (fun d => !pySpace d) = cs :=
      List.takeWhile_eq_self_iff.mpr (by
        intro x hx
        simp [hall x (by simp [hx])])
    have hd : cs.dropWhile (fun d => !pySpace d) = [] :=
      List.dropWhile_eq_nil_iff.mpr (by
        intro x hx
        simp [hall x (by simp [hx])])
    rw [h1, ht, hd]
    simp [pyWords]

/-- Splitting the newline-join on whitespace gives the words of the
lines. -/
theorem pyWords_joinNl : ∀ (lines : List PyStr),
    pyWords (joinNl lines) = lines.flatMap pyWords
  | [] => by simp [joinNl, pyWords]
  | [l] => by simp [joinNl]
  | l :: l' :: ls => by
    have h1 : joinNl (l :: l' :: ls) = l ++ '\n' :: joinNl (l' :: ls) := rfl
    rw [h1, pyWords_append_sep l (joinNl (l' :: ls)) '\n' (by decide),
      pyWords_joinNl (l' :: ls)]
    simp

/-- A newline-free line splits on newline to itself. -/
theorem splitNl_no_nl (l : PyStr) (h : ∀ c ∈ l, c ≠ '\n') : splitNl l = [l] := by
  induction l with
  | nil => rfl
  | cons c cs ih =>
    have hc : c ≠ '\n' := h c (by simp)
    have := ih (fun x hx => h x (by simp [hx]))
    simp [splitNl, hc, this]

/-- `splitNl` pulls off a newline-free line before a newline. -/
theorem splitNl_append (l r : PyStr) (h : ∀ c ∈ l, c ≠ '\n') :
    splitNl (l ++ '\n' :: r) = l :: splitNl r := by
  induction l with
  | nil => simp [splitNl]
  | cons c cs ih =>
    have hc : c ≠ '\n' := h c (by simp)
    have := ih (fun x hx => h x (by simp [hx]))
    simp [splitNl, hc, this]

/-- `splitNl` inverts `joinNl` on nonempty lists of newline-free lines. -/
theorem splitNl_joinNl : ∀ (lines : List PyStr), lines ≠ [] →
    (∀ l ∈ lines, ∀ c ∈ l, c ≠ '\n') → splitNl (joinNl lines) = lines
  | [], h, _ => absurd rfl h
  | [l], _, hl => by
    have : joinNl [l] = l := rfl
    rw [this]
    exact splitNl_no_nl l (hl l (by simp))
  | l :: l' :: ls, _, hl => by
    have h1 : joinNl (l :: l' :: ls) = l ++ '\n' :: joinNl (l' :: ls) := rfl
    rw [h1, splitNl_append l _ (hl l (by simp)),
      splitNl_joinNl (l' :: ls) (by simp) (fun x hx => hl x (by simp [hx]))]

/-- Each piece of a newline split is at most as long as the input. -/
theorem splitNl_len (s : PyStr) : ∀ l ∈ splitNl s, l.length ≤ s.length := by
  induction s with
  | nil => simp [splitNl]
  | cons c cs ih =>
    by_cases hc : c = '\n'
    · subst hc
      simp only [splitNl, if_pos rfl]
      intro l hl
      rcases List.mem_cons.mp hl with h | h
      · simp [h]
      · have := ih l h
        simp only [List.length_cons]
        omega
    · simp only [splitNl, if_neg hc]
      rcases h : splitNl cs with nil | ⟨p, ps⟩
      · intro l hl
        rcases List.mem_cons.mp hl with h2 | h2
        · simp [h2]
        · simp at h2
      · intro l hl
        rcases List.mem_cons.mp hl with h2 | h2
        · subst h2
          have := ih p (by rw [h]; simp)
          simp only [List.length_cons]
          omega
        · have := ih l (by rw [h]; simp [h2])
          simp only [List.length_cons]
          omega

/-- The greedy wrap invariant: the emitted lines concatenate (word-wise) to
the input word sequence, and every emitted line is newline-free and either
at most 20 characters long or a single word. -/
theorem wrapLoop_spec :
    ∀ (ws : List PyStr) (lines : List PyStr) (cur : PyStr),
      (∀ w ∈ ws, w ≠ [] ∧ ∀ c ∈ w, pySpace c = false) →
      (cur = [] ∨ ((∀ c ∈ cur, c ≠ '\n') ∧ (cur.length ≤ 20 ∨ (pyWords cur).length = 1))) →
      (∀ l ∈ lines, (∀ c ∈ l, c ≠ '\n') ∧ (l.length ≤ 20 ∨ (pyWords l).length = 1)) →
      ((wrapLoop ws lines cur).flatMap pyWords =
        lines.flatMap pyWords ++ pyWords cur ++ ws) ∧
      (∀ l ∈ wrapLoop ws lines cur,
        (∀ c ∈ l, c ≠ '\n') ∧ (l.length ≤ 20 ∨ (pyWords l).length = 1)) := by
  intro ws
  induction ws with
  | nil =>
    intro lines cur _ hcur hlines
    by_cases hc : cur = []
    · subst hc
      constructor
      · simp [wrapLoop, pyWords]
      · simp only [wrapLoop, if_pos rfl]
        exact hlines
    · rcases hcur with h | hgood
      · exact absurd h hc
      · constructor
        · simp [wrapLoop, hc]
        · simp only [wrapLoop, if_neg hc]
          intro l hl
          rcases List.mem_append.mp hl with h | h
          · exact hlines l h
          · rw [List.mem_singleton.mp h]
            exact hgood
  | cons w ws' ih =>
    intro lines cur hw hcur hlines
    have hw0 := hw w (by simp)
    have hws' : ∀ x ∈ ws', x ≠ [] ∧ ∀ c ∈ x, pySpace c = false :=
      fun x hx => hw x (by simp [hx])
    have hwnl : ∀ c ∈ w, c ≠ '\n' := by
      intro c hc heq
      have := hw0.2 c hc
      rw [heq] at this
      simp [pySpace] at this
    have hwone : pyWords w = [w] := pyWords_single w hw0.1 hw0.2
    have hwgood : (∀ c ∈ w, c ≠ '\n') ∧ (w.length ≤ 20 ∨ (pyWords w).length = 1) :=
      ⟨hwnl, Or.inr (by rw [hwone]; rfl)⟩
    by_cases hbig : cur ≠ [] ∧ (cur ++ ' ' :: w).length > 20
    · -- flush the current line, start a new one with w
      have hcg : (∀ c ∈ cur, c ≠ '\n') ∧ (cur.length ≤ 20 ∨ (pyWords cur).length = 1) := by
        rcases hcur with h | h
        · exact absurd h hbig.1
        · exact h
      have hlines2 : ∀ l ∈ lines ++ [cur],
          (∀ c ∈ l, c ≠ '\n') ∧ (l.length ≤ 20 ∨ (pyWords l).length = 1) := by
        intro l hl
        rcases List.mem_append.mp hl with h | h
        · exact hlines l h
        · rw [List.mem_singleton.mp h]
          exact hcg
      have := ih (lines ++ [cur]) w hws' (Or.inr hwgood) hlines2
      have h1 : wrapLoop (w :: ws') lines cur = wrapLoop ws' (lines ++ [cur]) w := by
        rw [wrapLoop, if_pos hbig]
      constructor
      · rw [h1, this.1, hwone]
        simp
      · rw [h1]
        exact this.2
    · by_cases hne : cur ≠ []
      · -- extend the current line with a space and w
        have hcg : (∀ c ∈ cur, c ≠ '\n') ∧ (cur.length ≤ 20 ∨ (pyWords cur).length = 1) := by
          rcases hcur with h | h
          · exact absurd h hne
          · exact h
        have hlen : (cur ++ ' ' :: w).length ≤ 20 := by
          by_contra hgt
          exact hbig ⟨hne, by omega⟩
        have hnewgood : (∀ c ∈ cur ++ ' ' :: w, c ≠ '\n') ∧
            ((cur ++ ' ' :: w).length ≤ 20 ∨ (pyWords (cur ++ ' ' :: w)).length = 1) := by
          constructor
          · intro c hc
            rcases List.mem_append.mp hc with h | h
            · exact hcg.1 c h
            · rcases List.mem_cons.mp h with h | h
              · rw [h]
                decide
              · exact hwnl c h
          · exact Or.inl hlen
        have hwords : pyWords (cur ++ ' ' :: w) = pyWords cur ++ [w] := by
          rw [pyWords_append_sep cur w ' ' (by decide), hwone]
        have := ih lines (cur ++ ' ' :: w) hws' (Or.inr hnewgood) hlines
        have h1 : wrapLoop (w :: ws') lines cur = wrapLoop ws' lines (cur ++ ' ' :: w) := by
          rw [wrapLoop, if_neg hbig, if_pos hne]
        constructor
        · rw [h1, this.1, hwords]
          simp
        · rw [h1]
          exact this.2
      · -- first word of a fresh line
        rw [Ne, not_not] at hne
        subst hne
        have := ih lines w hws' (Or.inr hwgood) hlines
        have h2 : wrapLoop (w :: ws') lines [] = wrapLoop ws' lines w := by
          rw [wrapLoop, if_neg hbig, if_neg (by simp)]
        constructor
        · rw [h2, this.1, hwone]
          simp [pyWords]
        · rw [h2]
          exact this.2

/-- C6: for every input string, the label-wrapping function
`format_milestone_name` (i) preserves the word sequence — splitting its
output on whitespace yields exactly the whitespace-separated words of the
input, in order; (ii) returns any string of at most 20 characters
unchanged; and (iii) emits output lines (the newline-separated pieces)
each at most 20 characters long unless a line consists of a single word
(which the greedy wrap only leaves alone when it cannot split it, i.e.
when the word itself exceeds 20 characters). -/
theorem c6_wrap_properties (s : PyStr) :
    pyWords (format_milestone_name s) = pyWords s ∧
    (s.length ≤ 20 → format_milestone_name s = s) ∧
    (∀ l ∈ splitNl (format_milestone_name s),
      l.length ≤ 20 ∨ (pyWords l).length = 1) := by
  by_cases h : s.length ≤ 20
  · refine ⟨?_, fun _ => ?_, ?_⟩
    · rw [format_milestone_name, if_pos h]
    · rw [format_milestone_name, if_pos h]
    · rw [format_milestone_name, if_pos h]
      intro l hl
      exact Or.inl (le_trans (splitNl_len s l hl) h)
  · have hfmt : format_milestone_name s = joinNl (wrapLoop (pyWords s) [] []) := by
      rw [format_milestone_name, if_neg h]
    have hspec := wrapLoop_spec (pyWords s) [] [] (pyWords_good s) (Or.inl rfl) (by simp)
    have hA : (wrapLoop (pyWords s) [] []).flatMap pyWords = pyWords s := by
      rw [hspec.1]
      simp [pyWords]
    refine ⟨?_, fun hls => absurd hls h, ?_⟩
    · rw [hfmt, pyWords_joinNl, hA]
    · rw [hfmt]
      rcases hL : wrapLoop (pyWords s) [] [] with _ | ⟨l0, ls⟩
      · intro l hl
        simp only [joinNl, splitNl, List.mem_singleton] at hl
        subst hl
        exact Or.inl (by simp)
      · rw [← hL]
        have hnl : ∀ l ∈ wrapLoop (pyWords s) [] [], ∀ c ∈ l, c ≠ '\n' :=
          fun l hl => (hspec.2 l hl).1
        rw [splitNl_joinNl (wrapLoop (pyWords s) [] []) (by rw [hL]; simp) hnl]
        intro l hl
        exact (hspec.2 l hl).2

/-- C6, witness: the wrap properties applied to the concrete short name
`"Design Complete"`, discharging the length hypothesis of part (ii). -/
theorem c6_witness :
    pyWords (format_milestone_name "Design Complete".data) =
      pyWords "Design Complete".data ∧
    format_milestone_name "Design Complete".data =
      'D' :: "esign Complete".data ∧
    (∀ l ∈ splitNl (format_milestone_name "Design Complete".data),
      l.length ≤ 20 ∨ (pyWords l).length = 1) := by
  obtain ⟨a, b, c⟩ := c6_wrap_properties "Design Complete".data
  exact ⟨a, b (by decide), c⟩


/-- Lexicographic string `<` is asymmetric. -/
theorem strLtB_asymm : ∀ (a b : PyStr), strLtB a b = true → strLtB b a = false
  | [], [] => by simp [strLtB]
  | [], _ :: _ => by simp [strLtB]
  | _ :: _, [] => by simp [strLtB]
  | a :: as, b :: bs => by
    simp only [strLtB]
    by_cases h1 : a.toNat < b.toNat
    · have h2 : ¬ b.toNat < a.toNat := by omega
      simp [h1, h2]
    · by_cases h2 : b.toNat < a.toNat
      · simp [h1, h2]
      · simp [h1, h2]
        exact strLtB_asymm as bs

/-- Negations of lexicographic string `<` compose transitively. -/
theorem strLtB_neg_trans : ∀ (a b c : PyStr),
    strLtB b a = false → strLtB c b = false → strLtB c a = false := by
  intro a
  induction a with
  | nil =>
    intro b c _ _
    cases c with
    | nil => simp [strLtB]
    | cons c0 cs => simp [strLtB]
  | cons a0 as ih =>
    intro b c h1 h2
    cases b with
    | nil => simp [strLtB] at h1
    | cons b0 bs =>
      cases c with
      | nil => simp [strLtB] at h2
      | cons c0 cs =>
        simp only [strLtB] at h1 h2 ⊢
        by_cases hba : b0.toNat < a0.toNat
        · simp [hba] at h1
        · by_cases hcb : c0.toNat < b0.toNat
          · simp [hcb] at h2
          · by_cases hab : a0.toNat < b0.toNat
            · have h3 : ¬ c0.toNat < a0.toNat := by omega
              have h4 : a0.toNat < c0.toNat := by omega
              simp [h3, h4]
            · by_cases hbc : b0.toNat < c0.toNat
              · have h3 : ¬ c0.toNat < a0.toNat := by omega
                have h4 : a0.toNat < c0.toNat := by omega
                simp [h3, h4]
              · have h3 : ¬ c0.toNat < a0.toNat := by omega
                have h4 : ¬ a0.toNat < c0.toNat := by omega
                simp only [if_neg h3, if_neg h4]
                simp only [if_neg hba, if_neg hab] at h1
                simp only [if_neg hcb, if_neg hbc] at h2
                exact ih bs cs h1 h2

/-- `pairLe` orders the start months. -/
theorem pairLe_fst_le (p q : Int × String) (h : pairLe p q = true) : p.1 ≤ q.1 := by
  unfold pairLe at h
  by_cases h1 : p.1 < q.1
  · omega
  · by_cases h2 : q.1 < p.1
    · rw [if_neg h1, if_pos h2] at h
      simp at h
    · omega

/-- The tuple order is total. -/
theorem pairLe_total (p q : Int × String) : pairLe p q = true ∨ pairLe q p = true := by
  by_cases h1 : p.1 < q.1
  · left
    unfold pairLe
    rw [if_pos h1]
  · by_cases h2 : q.1 < p.1
    · right
      unfold pairLe
      rw [if_pos h2]
    · by_cases h3 : strLtB q.2.data p.2.data = true
      · right
        unfold pairLe
        rw [if_neg h2, if_neg h1, strLtB_asymm _ _ h3]
        rfl
      · left
        unfold pairLe
        rw [Bool.not_eq_true] at h3
        rw [if_neg h1, if_neg h2, h3]
        rfl

/-- The tuple order is transitive. -/
theorem pairLe_trans (p q r : Int × String) (h1 : pairLe p q = true)
    (h2 : pairLe q r = true) : pairLe p r = true := by
  have hle1 := pairLe_fst_le p q h1
  have hle2 := pairLe_fst_le q r h2
  by_cases hpr : p.1 < r.1
  · unfold pairLe
    rw [if_pos hpr]
  · have heq1 : ¬ p.1 < q.1 := by omega
    have heq1r : ¬ q.1 < p.1 := by omega
    have heq2 : ¬ q.1 < r.1 := by omega
    have heq2r : ¬ r.1 < q.1 := by omega
    unfold pairLe at h1 h2
    rw [if_neg heq1, if_neg heq1r] at h1
    rw [if_neg heq2, if_neg heq2r] at h2
    unfold pairLe
    rw [if_neg hpr, if_neg (by omega : ¬ r.1 < p.1)]
    simp only [Bool.not_eq_true'] at h1 h2 ⊢
    exact strLtB_neg_trans p.2.data q.2.data r.2.data h1 h2

/-- Insertion permutes. -/
theorem insertSorted_perm (x : Int × String) (l : List (Int × String)) :
    (insertSorted x l).Perm (x :: l) := by
  induction l with
  | nil => exact List.Perm.refl _
  | cons y ys ih =>
    by_cases h : pairLe x y = true
    · rw [insertSorted, if_pos h]
    · rw [insertSorted, if_neg h]
      exact (ih.cons y).trans (List.Perm.swap x y ys)

/-- The sort permutes. -/
theorem pySort_perm (l : List (Int × String)) : (pySort l).Perm l := by
  induction l with
  | nil => exact List.Perm.refl _
  | cons p ps ih =>
    exact (insertSorted_perm p (pySort ps)).trans (ih.cons p)

/-- Insertion preserves sortedness. -/
theorem insertSorted_sorted (x : Int × String) (l : List (Int × String))
    (hl : List.Pairwise (fun a b => pairLe a b = true) l) :
    List.Pairwise (fun a b => pairLe a b = true) (insertSorted x l) := by
  induction l with
  | nil => simp [insertSorted]
  | cons y ys ih =>
    rcases List.pairwise_cons.mp hl with ⟨hy, hys⟩
    by_cases h : pairLe x y = true
    · rw [insertSorted, if_pos h]
      refine List.pairwise_cons.mpr ⟨?_, hl⟩
      intro z hz
      rcases List.mem_cons.mp hz with h2 | h2
      · rw [h2]
        exact h
      · exact pairLe_trans x y z h (hy z h2)
    · rw [insertSorted, if_neg h]
      have hyx : pairLe y x = true := by
        rcases pairLe_total x y with h2 | h2
        · exact absurd h2 h
        · exact h2
      refine List.pairwise_cons.mpr ⟨?_, ih hys⟩
      intro z hz
      have hz2 : z ∈ x :: ys := (insertSorted_perm x ys).mem_iff.mp hz
      rcases List.mem_cons.mp hz2 with h2 | h2
      · rw [h2]
        exact hyx
      · exact hy z h2

/-- The milestone positions are sorted by the tuple order. -/
theorem pySort_sorted (l : List (Int × String)) :
    List.Pairwise (fun a b => pairLe a b = true) (pySort l) := by
  induction l with
  | nil => simp [pySort]
  | cons p ps ih => exact insertSorted_sorted p (pySort ps) ih

/-- Length of the label traversal. -/
theorem labelsAux_length (ps : List (Int × String)) :
    ∀ (rest : List (Int × String)) (i : Nat), (labelsAux ps i rest).length = rest.length := by
  intro rest
  induction rest with
  | nil => intro i; rfl
  | cons p rest' ih =>
    intro i
    simp [labelsAux, ih]

/-- Each emitted label reads off the sorted position at its index. -/
theorem labelsAux_getD (ps : List (Int × String)) :
    ∀ (rest : List (Int × String)) (i0 j : Nat), j < rest.length →
      (labelsAux ps i0 rest).getD j { x := 0, y := 0, text := [] } =
        { x := (rest.getD j (0, "")).1, y := labelY ps (i0 + j),
          text := format_milestone_name ((rest.getD j (0, "")).2.data) } := by
  intro rest
  induction rest with
  | nil =>
    intro i0 j hj
    simp at hj
  | cons p rest' ih =>
    intro i0 j hj
    cases j with
    | zero => simp [labelsAux, List.getD]
    | succ j' =>
      have hj' : j' < rest'.length := by
        simp at hj
        omega
      have h1 : i0 + (j' + 1) = (i0 + 1) + j' := by omega
      simp only [labelsAux, List.getD_cons_succ, h1]
      exact ih (i0 + 1) j' hj'

/-- The staggering step: a label closer than 4 months to its predecessor
gets one of the three lowered rows and never the predecessor's height. -/
theorem labelY_stagger (ps : List (Int × String)) (i : Nat) (h0 : 0 < i)
    (hclose : (((ps.getD i (0, "")).1 - (ps.getD (i - 1) (0, "")).1)).natAbs < 4) :
    labelY ps i ≠ labelY ps (i - 1) ∧
    (labelY ps i = -5/2 ∨ labelY ps i = -4 ∨ labelY ps i = -11/2) := by
  have hY : labelY ps i = -1 - (((i % 3) + 1 : Nat) : ℚ) * (3/2) := by
    unfold labelY
    rw [if_pos ⟨h0, hclose⟩]
  have hmod : i % 3 = 0 ∨ i % 3 = 1 ∨ i % 3 = 2 := by omega
  have hvals : labelY ps i = -5/2 ∨ labelY ps i = -4 ∨ labelY ps i = -11/2 := by
    rcases hmod with h | h | h <;> rw [hY, h] <;> norm_num
  refine ⟨?_, hvals⟩
  by_cases hprev : 0 < i - 1 ∧
      (((ps.getD (i - 1) (0, "")).1 - (ps.getD (i - 1 - 1) (0, "")).1)).natAbs < 4
  · have hYp : labelY ps (i - 1) = -1 - ((((i - 1) % 3) + 1 : Nat) : ℚ) * (3/2) := by
      unfold labelY
      rw [if_pos hprev]
    have hne : i % 3 ≠ (i - 1) % 3 := by omega
    have hmod' : (i - 1) % 3 = 0 ∨ (i - 1) % 3 = 1 ∨ (i - 1) % 3 = 2 := by omega
    rw [hY, hYp]
    rcases hmod with h | h | h <;> rcases hmod' with h' | h' | h' <;>
      rw [h, h'] <;> first | (exfalso; omega) | norm_num
  · have hYp : labelY ps (i - 1) = -1 - 1/2 := by
      unfold labelY
      rw [if_neg hprev]
    rw [hYp]
    rcases hvals with h | h | h <;> rw [h] <;> norm_num

/-- C7: the milestone labels are laid out in ascending tuple order, so
their start months are nondecreasing; a milestone whose (sorted) start is
less than 4 months after its predecessor is staggered to one of exactly
three lowered rows (`base_y - row * 1.5`, `row ∈ {1,2,3}`), below the base
label height `-1.5` and always different from its predecessor's height;
and the `j`-th emitted label carries the `j`-th sorted position, its
staggered height and its wrapped name. -/
theorem c7_label_layout (ms : List GRecord) :
    List.Pairwise (fun p q : Int × String => p.1 ≤ q.1) (milestonePositions ms) ∧
    (∀ i : Nat, 0 < i → i < (milestonePositions ms).length →
      ((milestonePositions ms).getD i (0, "")).1 -
          ((milestonePositions ms).getD (i - 1) (0, "")).1 < 4 →
      labelY (milestonePositions ms) i ≠ labelY (milestonePositions ms) (i - 1) ∧
      (labelY (milestonePositions ms) i = -1 - 1 * (3/2) ∨
       labelY (milestonePositions ms) i = -1 - 2 * (3/2) ∨
       labelY (milestonePositions ms) i = -1 - 3 * (3/2)) ∧
      labelY (milestonePositions ms) i < -1 - 1/2) ∧
    (milestoneLabels ms).length = (milestonePositions ms).length ∧
    (∀ j : Nat, j < (milestonePositions ms).length →
      (milestoneLabels ms).getD j { x := 0, y := 0, text := [] } =
        { x := ((milestonePositions ms).getD j (0, "")).1,
          y := labelY (milestonePositions ms) j,
          text := format_milestone_name (((milestonePositions ms).getD j (0, "")).2.data) }) := by
  have hsorted : List.Pairwise (fun p q : Int × String => p.1 ≤ q.1)
      (milestonePositions ms) := by
    have := pySort_sorted (ms.map (fun m => (m.startMonth, m.task)))
    exact this.imp (fun {a b} hab => pairLe_fst_le a b hab)
  refine ⟨hsorted, ?_, ?_, ?_⟩
  · intro i h0 hi hlt
    have him : i - 1 < (milestonePositions ms).length := by omega
    have hadj : ((milestonePositions ms).getD (i - 1) (0, "")).1 ≤
        ((milestonePositions ms).getD i (0, "")).1 := by
      rw [List.getD_eq_getElem _ _ him, List.getD_eq_getElem _ _ hi]
      exact (List.pairwise_iff_getElem.mp hsorted) (i - 1) i him hi (by omega)
    have hclose : (((milestonePositions ms).getD i (0, "")).1 -
        ((milestonePositions ms).getD (i - 1) (0, "")).1).natAbs < 4 := by
      omega
    obtain ⟨hne, hvals⟩ := labelY_stagger (milestonePositions ms) i h0 hclose
    refine ⟨hne, ?_, ?_⟩
    · rcases hvals with h | h | h <;> rw [h] <;> norm_num
    · rcases hvals with h | h | h <;> rw [h] <;> norm_num
  · exact labelsAux_length _ _ 0
  · intro j hj
    have := labelsAux_getD (milestonePositions ms) (milestonePositions ms) 0 j hj
    simpa using this

/-- C7, witness: for the two concrete milestones at months 3 and 5 (closer
than 4 months), the second label is staggered away from the first. -/
theorem c7_witness :
    0 < 1 ∧ 1 < (milestonePositions c7Ms).length ∧
    ((milestonePositions c7Ms).getD 1 (0, "")).1 -
        ((milestonePositions c7Ms).getD 0 (0, "")).1 < 4 ∧
    labelY (milestonePositions c7Ms) 1 ≠ labelY (milestonePositions c7Ms) 0 := by
  have h2 : 1 < (milestonePositions c7Ms).length := by decide
  have h3 : ((milestonePositions c7Ms).getD 1 (0, "")).1 -
      ((milestonePositions c7Ms).getD 0 (0, "")).1 < 4 := by decide
  exact ⟨Nat.one_pos, h2, h3,
    ((c7_label_layout c7Ms).2.1 1 Nat.one_pos h2 h3).1⟩

/-- Membership in the deduplicating traversal. -/
theorem mem_uniqueFirstAux : ∀ (l : List String) (seen : List String) (a : String),
    a ∈ uniqueFirstAux seen l ↔ a ∈ l ∧ a ∉ seen := by
  intro l
  induction l with
  | nil => intro seen a; simp [uniqueFirstAux]
  | cons x xs ih =>
    intro seen a
    by_cases hx : x ∈ seen
    · rw [uniqueFirstAux, if_pos hx, ih]
      constructor
      · rintro ⟨h1, h2⟩
        exact ⟨List.mem_cons_of_mem _ h1, h2⟩
      · rintro ⟨h1, h2⟩
        rcases List.mem_cons.mp h1 with h | h
        · exact absurd (h ▸ hx) h2
        · exact ⟨h, h2⟩
    · rw [uniqueFirstAux, if_neg hx]
      simp only [List.mem_cons, ih, List.mem_append, List.mem_singleton]
      constructor
      · rintro (h | ⟨h1, h2⟩)
        · exact ⟨Or.inl h, h ▸ hx⟩
        · refine ⟨Or.inr h1, fun hs => h2 (Or.inl hs)⟩
      · rintro ⟨h1 | h1, h2⟩
        · exact Or.inl h1
        · by_cases hax : a = x
          · exact Or.inl hax
          · refine Or.inr ⟨h1, fun hs => ?_⟩
            rcases hs with h | h
            · exact h2 h
            · exact hax (by simpa using h)

/-- Membership is preserved by first-occurrence deduplication. -/
theorem mem_uniqueFirst (l : List String) (a : String) : a ∈ uniqueFirst l ↔ a ∈ l := by
  unfold uniqueFirst
  rw [mem_uniqueFirstAux]
  simp

/-- The deduplicating traversal has no duplicates. -/
theorem nodup_uniqueFirstAux : ∀ (l : List String) (seen : List String),
    (uniqueFirstAux seen l).Nodup := by
  intro l
  induction l with
  | nil => intro seen; simp [uniqueFirstAux]
  | cons x xs ih =>
    intro seen
    by_cases hx : x ∈ seen
    · rw [uniqueFirstAux, if_pos hx]
      exact ih seen
    · rw [uniqueFirstAux, if_neg hx]
      refine List.nodup_cons.mpr ⟨?_, ih (seen ++ [x])⟩
      intro hmem
      have := (mem_uniqueFirstAux xs (seen ++ [x]) x).mp hmem
      exact this.2 (List.mem_append.mpr (Or.inr (List.mem_singleton.mpr rfl)))

/-- First-occurrence deduplication has no duplicates. -/
theorem nodup_uniqueFirst (l : List String) : (uniqueFirst l).Nodup :=
  nodup_uniqueFirstAux l []

/-- Grouping a record list by a covering duplicate-free key list is a
permutation of the list. -/
theorem flatMap_filter_perm : ∀ (wps : List String) (ts : List GRecord),
    wps.Nodup → (∀ t ∈ ts, t.workPackage ∈ wps) →
    (wps.flatMap (fun wp => ts.filter (fun t => t.workPackage == wp))).Perm ts := by
  intro wps
  induction wps with
  | nil =>
    intro ts _ hcov
    have : ts = [] := List.eq_nil_iff_forall_not_mem.mpr (fun t ht => by simpa using hcov t ht)
    simp [this]
  | cons wp wps' ih =>
    intro ts hnd hcov
    rcases List.nodup_cons.mp hnd with ⟨hwp, hnd'⟩
    rw [List.flatMap_cons]
    have hrw : wps'.flatMap (fun w => ts.filter (fun t => t.workPackage == w)) =
        wps'.flatMap (fun w => (ts.filter (fun t => !(t.workPackage == wp))).filter
          (fun t => t.workPackage == w)) := by
      apply List.flatMap_congr
      intro w hw
      rw [List.filter_filter]
      apply List.filter_congr
      intro t _
      have hneq : w ≠ wp := fun heq => hwp (heq ▸ hw)
      by_cases h : t.workPackage = w
      · simp [h, hneq]
      · simp [h]
    rw [hrw]
    have hcov' : ∀ t ∈ ts.filter (fun t => !(t.workPackage == wp)), t.workPackage ∈ wps' := by
      intro t ht
      rcases List.mem_filter.mp ht with ⟨ht1, ht2⟩
      have := hcov t ht1
      simp at ht2
      rcases List.mem_cons.mp this with h | h
      · exact absurd h ht2
      · exact h
    have hperm := ih (ts.filter (fun t => !(t.workPackage == wp))) hnd' hcov'
    exact (hperm.append_left _).trans (List.filter_append_perm _ ts)

/-- Every bar of a block carries the block's work package. -/
theorem barsFrom_wp : ∀ (ts : List GRecord) (wp : String) (c : RColor) (y : Int),
    ∀ b ∈ barsFrom wp c y ts, b.wp = wp := by
  intro ts
  induction ts with
  | nil => intro wp c y b hb; simp [barsFrom] at hb
  | cons t ts' ih =>
    intro wp c y b hb
    rcases List.mem_cons.mp hb with h | h
    · rw [h]
    · exact ih wp c (y + 1) b h

/-- Every bar of a block carries the block's color. -/
theorem barsFrom_color : ∀ (ts : List GRecord) (wp : String) (c : RColor) (y : Int),
    ∀ b ∈ barsFrom wp c y ts, b.color = c := by
  intro ts
  induction ts with
  | nil => intro wp c y b hb; simp [barsFrom] at hb
  | cons t ts' ih =>
    intro wp c y b hb
    rcases List.mem_cons.mp hb with h | h
    · rw [h]
    · exact ih wp c (y + 1) b h

/-- The y positions of a block are the consecutive integers starting at
its base. -/
theorem barsFrom_y : ∀ (ts : List GRecord) (wp : String) (c : RColor) (y : Int),
    (barsFrom wp c y ts).map Bar.y =
      (List.range ts.length).map (fun i => y + Int.ofNat i) := by
  intro ts
  induction ts with
  | nil => intro wp c y; rfl
  | cons t ts' ih =>
    intro wp c y
    simp only [barsFrom, List.map_cons, List.length_cons, List.range_succ_eq_map,
      List.map_map]
    refine congrArg₂ List.cons (by simp) ?_
    rw [ih wp c (y + 1)]
    apply List.map_congr_left
    intro i _
    show y + 1 + Int.ofNat i = y + Int.ofNat (i + 1)
    simp only [Int.ofNat_eq_coe]
    push_cast
    ring

/-- The record data of a block's bars is the record data of its tasks. -/
theorem barsFrom_info : ∀ (ts : List GRecord) (wp : String) (c : RColor) (y : Int),
    (∀ t ∈ ts, t.workPackage = wp) →
    (barsFrom wp c y ts).map barInfo = ts.map taskInfo := by
  intro ts
  induction ts with
  | nil => intro wp c y _; rfl
  | cons t ts' ih =>
    intro wp c y hall
    simp only [barsFrom, List.map_cons]
    rw [ih wp c (y + 1) (fun x hx => hall x (by simp [hx]))]
    refine congrArg₂ List.cons ?_ rfl
    unfold barInfo taskInfo
    simp [hall t (by simp)]

/-- Length of a block. -/
theorem barsFrom_length : ∀ (ts : List GRecord) (wp : String) (c : RColor) (y : Int),
    (barsFrom wp c y ts).length = ts.length := by
  intro ts
  induction ts with
  | nil => intro wp c y; rfl
  | cons t ts' ih =>
    intro wp c y
    simp [barsFrom, ih]

/-- The record data of all bars laid out is the grouped record data of the
task rows. -/
theorem layout_bars_info (tasks : List GRecord) (col : String → RColor) :
    ∀ (wps : List String) (y : Int),
      ((layoutAux tasks col wps y).1).map barInfo =
        wps.flatMap (fun wp => (tasks.filter (fun t => t.workPackage == wp)).map taskInfo) := by
  intro wps
  induction wps with
  | nil => intro y; rfl
  | cons wp0 rest ih =>
    intro y
    by_cases hemp : (tasks.filter (fun t => t.workPackage == wp0)).isEmpty = true
    · rw [layoutAux, if_pos hemp, List.flatMap_cons]
      rw [List.isEmpty_iff.mp hemp]
      simp only [List.map_nil, List.nil_append]
      exact ih y
    · rw [layoutAux, if_neg hemp, List.flatMap_cons]
      simp only [List.map_append]
      rw [barsFrom_info _ wp0 (col wp0) y (by
        intro t ht
        have := (List.mem_filter.mp ht).2
        simpa using this)]
      rw [ih (y + (tasks.filter (fun t => t.workPackage == wp0)).length)]

/-- Every laid-out bar belongs to one of the listed work packages. -/
theorem layout_bars_wp_mem (tasks : List GRecord) (col : String → RColor) :
    ∀ (wps : List String) (y : Int) (b : Bar),
      b ∈ (layoutAux tasks col wps y).1 → b.wp ∈ wps := by
  intro wps
  induction wps with
  | nil => intro y b hb; simp [layoutAux] at hb
  | cons wp0 rest ih =>
    intro y b hb
    by_cases hemp : (tasks.filter (fun t => t.workPackage == wp0)).isEmpty = true
    · rw [layoutAux, if_pos hemp] at hb
      exact List.mem_cons_of_mem _ (ih y b hb)
    · rw [layoutAux, if_neg hemp] at hb
      rcases List.mem_append.mp hb with h | h
      · rw [barsFrom_wp _ wp0 (col wp0) y b h]
        exact List.mem_cons_self _ _
      · exact List.mem_cons_of_mem _
          (ih (y + (tasks.filter (fun t => t.workPackage == wp0)).length) b h)

/-- Every recorded range names a listed work package with at least one
task row. -/
theorem layout_ranges_src (tasks : List GRecord) (col : String → RColor) :
    ∀ (wps : List String) (y : Int) (wp : String) (s e : Int),
      (wp, s, e) ∈ (layoutAux tasks col wps y).2.1 →
      wp ∈ wps ∧ tasks.filter (fun t => t.workPackage == wp) ≠ [] := by
  intro wps
  induction wps with
  | nil => intro y wp s e h; simp [layoutAux] at h
  | cons wp0 rest ih =>
    intro y wp s e h
    by_cases hemp : (tasks.filter (fun t => t.workPackage == wp0)).isEmpty = true
    · rw [layoutAux, if_pos hemp] at h
      have := ih y wp s e h
      exact ⟨List.mem_cons_of_mem _ this.1, this.2⟩
    · rw [layoutAux, if_neg hemp] at h
      rcases List.mem_cons.mp h with h2 | h2
      · have hwp : wp = wp0 := congrArg Prod.fst h2
        subst hwp
        refine ⟨List.mem_cons_self _ _, ?_⟩
        intro hnil
        rw [hnil] at hemp
        simp at hemp
      · have := ih (y + (tasks.filter (fun t => t.workPackage == wp0)).length) wp s e h2
        exact ⟨List.mem_cons_of_mem _ this.1, this.2⟩

/-- The block of a work package with task rows: its recorded range and its
bars, which are exactly one consecutive run. -/
theorem layout_ranges (tasks : List GRecord) (col : String → RColor) :
    ∀ (wps : List String) (y : Int) (wp : String),
      wps.Nodup → wp ∈ wps →
      tasks.filter (fun t => t.workPackage == wp) ≠ [] →
      ∃ s : Int,
        (wp, s, s + (tasks.filter (fun t => t.workPackage == wp)).length - 1) ∈
          (layoutAux tasks col wps y).2.1 ∧
        ((layoutAux tasks col wps y).1).filter (fun b => b.wp == wp) =
          barsFrom wp (col wp) s (tasks.filter (fun t => t.workPackage == wp)) := by
  intro wps
  induction wps with
  | nil => intro y wp _ hmem; simp at hmem
  | cons wp0 rest ih =>
    intro y wp hnd hmem hne
    rcases List.nodup_cons.mp hnd with ⟨hwp0, hnd'⟩
    by_cases heq : wp = wp0
    · subst heq
      have hemp : ¬ (tasks.filter (fun t => t.workPackage == wp)).isEmpty = true := by
        intro h
        exact hne (List.isEmpty_iff.mp h)
      refine ⟨y, ?_, ?_⟩
      · rw [layoutAux, if_neg hemp]
        exact List.mem_cons_self _ _
      · rw [layoutAux, if_neg hemp]
        simp only [List.filter_append]
        have h1 : (barsFrom wp (col wp) y
            (tasks.filter (fun t => t.workPackage == wp))).filter (fun b => b.wp == wp) =
            barsFrom wp (col wp) y (tasks.filter (fun t => t.workPackage == wp)) := by
          rw [List.filter_eq_self]
          intro b hb
          simp [barsFrom_wp _ wp (col wp) y b hb]
        have h2 : ((layoutAux tasks col rest
            (y + (tasks.filter (fun t => t.workPackage == wp)).length)).1).filter
              (fun b => b.wp == wp) = [] := by
          rw [List.filter_eq_nil_iff]
          intro b hb
          have := layout_bars_wp_mem tasks col rest _ b hb
          simp only [beq_iff_eq]
          intro heq2
          exact hwp0 (heq2 ▸ this)
        rw [h1, h2, List.append_nil]
    · have hmem' : wp ∈ rest := by
        rcases List.mem_cons.mp hmem with h | h
        · exact absurd h heq
        · exact h
      by_cases hemp : (tasks.filter (fun t => t.workPackage == wp0)).isEmpty = true
      · rw [layoutAux, if_pos hemp]
        exact ih y wp hnd' hmem' hne
      · obtain ⟨s, hs1, hs2⟩ :=
          ih (y + (tasks.filter (fun t => t.workPackage == wp0)).length) wp hnd' hmem' hne
        refine ⟨s, ?_, ?_⟩
        · rw [layoutAux, if_neg hemp]
          exact List.mem_cons_of_mem _ hs1
        · rw [layoutAux, if_neg hemp]
          simp only [List.filter_append]
          have h1 : (barsFrom wp0 (col wp0) y
              (tasks.filter (fun t => t.workPackage == wp0))).filter (fun b => b.wp == wp) = [] := by
            rw [List.filter_eq_nil_iff]
            intro b hb
            have := barsFrom_wp _ wp0 (col wp0) y b hb
            simp only [beq_iff_eq]
            intro heq2
            exact heq (heq2 ▸ this ▸ rfl)
          rw [h1, hs2, List.nil_append]

/-- A `filterMap` over `range` whose guard is a threshold is a `map` over
the truncated range. -/
theorem filterMap_range_if {β : Type} (g : Nat → β) (K : Nat) :
    ∀ (n : Nat),
      (List.range n).filterMap (fun i => if i < K then some (g i) else Option.none) =
        (List.range (min n K)).map g := by
  intro n
  induction n with
  | zero => simp
  | succ n ih =>
    rw [List.range_succ, List.filterMap_append, ih]
    by_cases h : n < K
    · have hmin : min (n + 1) K = min n K + 1 := by omega
      have hmin2 : min n K = n := by omega
      rw [hmin, List.range_succ, List.map_append, hmin2]
      simp [h, hmin2]
    · have hmin : min (n + 1) K = min n K := by omega
      rw [hmin]
      simp [h]

/-- The stripe loop emits exactly the prefix of stripes whose start lies
below the top, in order, colors cycling through the palette. -/
theorem stripeSegs_eq_map (x : Int) (yBottom yTop : ℚ) (cs : List RColor) :
    stripeSegs x yBottom yTop cs =
      (List.range (min (numStripes yBottom yTop).toNat (⌈(yTop - yBottom) * 5⌉).toNat)).map
        (fun i =>
          { x := x,
            ymin := (yBottom + (i : ℚ) * (1/5) - yBottom) / (yTop - yBottom),
            ymax := (min (yBottom + (i : ℚ) * (1/5) + 1/5) yTop - yBottom) / (yTop - yBottom),
            color := cs.getD (i % cs.length) (RColor.named "gray") }) := by
  unfold stripeSegs
  rw [List.filterMap_congr (g := fun (i : Nat) =>
    if i < (⌈(yTop - yBottom) * 5⌉).toNat then
      some { x := x,
             ymin := (yBottom + (i : ℚ) * (1/5) - yBottom) / (yTop - yBottom),
             ymax := (min (yBottom + (i : ℚ) * (1/5) + 1/5) yTop - yBottom) / (yTop - yBottom),
             color := cs.getD (i % cs.length) (RColor.named "gray") }
    else Option.none) ?_]
  · exact filterMap_range_if _ _ _
  · intro i _
    have hiff : yBottom + (i : ℚ) * (1/5) < yTop ↔ i < (⌈(yTop - yBottom) * 5⌉).toNat := by
      rw [Int.lt_toNat, Int.lt_ceil]
      constructor
      · intro h
        push_cast
        linarith
      · intro h
        push_cast at h
        linarith
    by_cases h : yBottom + (i : ℚ) * (1/5) < yTop
    · rw [if_pos h]
      dsimp only
      rw [if_pos (hiff.mp h)]
    · rw [if_neg h]
      dsimp only
      rw [if_neg (fun hk => h (hiff.mpr hk))]

/-- With a nondegenerate axis there is at least one stripe. -/
theorem stripeSegs_ne_nil (x : Int) (yBottom yTop : ℚ) (cs : List RColor)
    (h : yBottom < yTop) : stripeSegs x yBottom yTop cs ≠ [] := by
  rw [stripeSegs_eq_map]
  have h5 : (0 : ℚ) < (yTop - yBottom) * 5 := by linarith
  have hceil : 0 < ⌈(yTop - yBottom) * 5⌉ := by
    rw [Int.lt_ceil]
    push_cast
    linarith
  have hnum : 0 < (numStripes yBottom yTop).toNat := by
    unfold numStripes pyIntTrunc
    have hq : (0 : ℚ) ≤ (yTop - yBottom) / (1/5) := by
      rw [le_div_iff₀ (by norm_num)]
      linarith
    rw [if_pos hq]
    have : (0 : Int) ≤ ⌊(yTop - yBottom) / (1/5)⌋ := Int.floor_nonneg.mpr hq
    omega
  have : 0 < min (numStripes yBottom yTop).toNat (⌈(yTop - yBottom) * 5⌉).toNat := by
    omega
  intro hnil
  rw [List.map_eq_nil_iff, List.range_eq_nil] at hnil
  omega

/-- Every stripe sits at the milestone month. -/
theorem stripeSegs_x (x : Int) (yBottom yTop : ℚ) (cs : List RColor) :
    ∀ s ∈ stripeSegs x yBottom yTop cs, s.x = x := by
  rw [stripeSegs_eq_map]
  intro s hs
  rcases List.mem_map.mp hs with ⟨i, _, hi⟩
  rw [← hi]

/-- The `j`-th emitted stripe cycles through the resolved colors. -/
theorem stripeSegs_colors (x : Int) (yBottom yTop : ℚ) (cs : List RColor) :
    ∀ j : Nat, j < (stripeSegs x yBottom yTop cs).length →
      ((stripeSegs x yBottom yTop cs).getD j
          { x := 0, ymin := 0, ymax := 0, color := RColor.named "gray" }).color =
        cs.getD (j % cs.length) (RColor.named "gray") := by
  rw [stripeSegs_eq_map]
  intro j hj
  rw [List.length_map, List.length_range] at hj
  rw [List.getD_eq_getElem _ _ (by simpa using hj), List.getElem_map,
    List.getElem_range]

/-- Every vertical segment of a milestone sits at its start month. -/
theorem milestoneSegs_x (wps : List String) (col : String → RColor)
    (yBottom yTop : ℚ) (m : GRecord) :
    ∀ s ∈ milestoneSegs wps col yBottom yTop m, s.x = m.startMonth := by
  unfold milestoneSegs
  rcases m.relatedWPs with _ | rel
  · intro s hs
    rw [List.mem_singleton.mp hs]
  · dsimp only
    by_cases h1 : (resolveColors wps col rel).length = 1
    · rw [if_pos h1]
      intro s hs
      rw [List.mem_singleton.mp hs]
    · rw [if_neg h1]
      by_cases h2 : (resolveColors wps col rel).length > 1
      · rw [if_pos h2]
        exact stripeSegs_x _ _ _ _
      · rw [if_neg h2]
        intro s hs
        rw [List.mem_singleton.mp hs]

/-- Every milestone draws at least one vertical segment. -/
theorem milestoneSegs_ne_nil (wps : List String) (col : String → RColor)
    (yBottom yTop : ℚ) (m : GRecord) (h : yBottom < yTop) :
    milestoneSegs wps col yBottom yTop m ≠ [] := by
  unfold milestoneSegs
  rcases m.relatedWPs with _ | rel
  · simp
  · dsimp only
    by_cases h1 : (resolveColors wps col rel).length = 1
    · rw [if_pos h1]
      simp
    · rw [if_neg h1]
      by_cases h2 : (resolveColors wps col rel).length > 1
      · rw [if_pos h2]
        exact stripeSegs_ne_nil _ _ _ _ h
      · rw [if_neg h2]
        simp

/-- C4: horizontal bars are drawn exactly for the records of type `"Task"`
(the bars' record data is a permutation of the task records' data, in
particular one bar per task and none for any other record), and every
milestone record draws at least one vertical marker, all of its segments
at x equal to its start month; conversely every vertical marker on the
chart sits at the start month of some milestone record. -/
theorem c4_bars_and_markers (data : List GRecord) (yBottom yTop : ℚ)
    (h : yBottom < yTop) :
    ((create_gantt_chart data yBottom yTop).bars.map barInfo).Perm
        ((tasksOf data).map taskInfo) ∧
    (create_gantt_chart data yBottom yTop).bars.length = (tasksOf data).length ∧
    (∀ m ∈ milestonesOf data,
      milestoneSegs (workPackages data) (wpColor (workPackages data)) yBottom yTop m ≠ [] ∧
      ∀ s ∈ milestoneSegs (workPackages data) (wpColor (workPackages data)) yBottom yTop m,
        s.x = m.startMonth) ∧
    (∀ s ∈ (create_gantt_chart data yBottom yTop).msegs,
      ∃ m ∈ data, m.typ = "Milestone" ∧ s.x = m.startMonth) := by
  have hcov : ∀ t ∈ tasksOf data, t.workPackage ∈ workPackages data := by
    intro t ht
    have h1 : t ∈ data := List.mem_of_mem_filter ht
    unfold workPackages
    rw [mem_uniqueFirst]
    exact List.mem_map.mpr ⟨t, h1, rfl⟩
  have hperm : ((create_gantt_chart data yBottom yTop).bars.map barInfo).Perm
      ((tasksOf data).map taskInfo) := by
    show (((layoutAux (tasksOf data) (wpColor (workPackages data))
        (workPackages data) 0).1).map barInfo).Perm ((tasksOf data).map taskInfo)
    rw [layout_bars_info, ← List.map_flatMap]
    exact (flatMap_filter_perm (workPackages data) (tasksOf data)
      (nodup_uniqueFirst _) hcov).map taskInfo
  refine ⟨hperm, ?_, ?_, ?_⟩
  · have := hperm.length_eq
    rw [List.length_map, List.length_map] at this
    exact this
  · intro m _
    exact ⟨milestoneSegs_ne_nil _ _ _ _ m h, milestoneSegs_x _ _ _ _ m⟩
  · intro s hs
    have hs2 : s ∈ (milestonesOf data).flatMap
        (milestoneSegs (workPackages data) (wpColor (workPackages data)) yBottom yTop) := hs
    rcases List.mem_flatMap.mp hs2 with ⟨m, hm, hsm⟩
    refine ⟨m, List.mem_of_mem_filter hm, ?_, milestoneSegs_x _ _ _ _ m s hsm⟩
    have := (List.mem_filter.mp hm).2
    simpa using this

/-- C4, witness: the bar/marker correspondence on the concrete chart data
`wData`, discharging the nondegenerate-axis hypothesis. -/
theorem c4_witness :
    (0 : ℚ) < 3 ∧
    (((create_gantt_chart wData 0 3).bars.map barInfo).Perm
        ((tasksOf wData).map taskInfo) ∧
      (create_gantt_chart wData 0 3).bars.length = (tasksOf wData).length ∧
      (∀ m ∈ milestonesOf wData,
        milestoneSegs (workPackages wData) (wpColor (workPackages wData)) 0 3 m ≠ [] ∧
        ∀ s ∈ milestoneSegs (workPackages wData) (wpColor (workPackages wData)) 0 3 m,
          s.x = m.startMonth) ∧
      (∀ s ∈ (create_gantt_chart wData 0 3).msegs,
        ∃ m ∈ wData, m.typ = "Milestone" ∧ s.x = m.startMonth)) :=
  ⟨by norm_num, c4_bars_and_markers wData 0 3 (by norm_num)⟩

/-- C5: a work package with at least one task row occupies one block of
consecutive integer y positions starting at some `s`, all its bars share
the package's palette color, and its recorded range spans exactly the
block; a multi-task block is decorated with the three brace segments on
the left (vertical line from `s - 0.4` to `e + 0.4`) plus the tilted
label, while a single-task block gets only the label. -/
theorem c5_wp_blocks (data : List GRecord) (yBottom yTop : ℚ) (wp : String)
    (hmem : wp ∈ workPackages data)
    (hne : (tasksOf data).filter (fun t => t.workPackage == wp) ≠ []) :
    ∃ s : Int,
      (wp, s, s + ((tasksOf data).filter (fun t => t.workPackage == wp)).length - 1) ∈
        (create_gantt_chart data yBottom yTop).wpRanges ∧
      ((create_gantt_chart data yBottom yTop).bars.filter (fun b => b.wp == wp)).map
          Bar.color =
        List.replicate ((tasksOf data).filter (fun t => t.workPackage == wp)).length
          (wpColor (workPackages data) wp) ∧
      ((create_gantt_chart data yBottom yTop).bars.filter (fun b => b.wp == wp)).map
          Bar.y =
        (List.range ((tasksOf data).filter (fun t => t.workPackage == wp)).length).map
          (fun i => s + Int.ofNat i) ∧
      (1 < ((tasksOf data).filter (fun t => t.workPackage == wp)).length →
        wpDecor (wpColor (workPackages data))
            (wp, s, s + ((tasksOf data).filter (fun t => t.workPackage == wp)).length - 1) =
          [WpCmd.seg (-8/10) ((s : ℚ) - 4/10) (-6/10) ((s : ℚ) - 4/10),
           WpCmd.seg (-8/10) ((s : ℚ) - 4/10) (-8/10)
             (((s + ((tasksOf data).filter (fun t => t.workPackage == wp)).length - 1 : Int) : ℚ) + 4/10),
           WpCmd.seg (-8/10)
             (((s + ((tasksOf data).filter (fun t => t.workPackage == wp)).length - 1 : Int) : ℚ) + 4/10)
             (-6/10)
             (((s + ((tasksOf data).filter (fun t => t.workPackage == wp)).length - 1 : Int) : ℚ) + 4/10),
           WpCmd.label (-12/10)
             (((s : ℚ) + ((s + ((tasksOf data).filter (fun t => t.workPackage == wp)).length - 1 : Int) : ℚ)) / 2)
             (format_wp_name wp.data) (wpColor (workPackages data) wp)]) ∧
      (((tasksOf data).filter (fun t => t.workPackage == wp)).length = 1 →
        wpDecor (wpColor (workPackages data))
            (wp, s, s + ((tasksOf data).filter (fun t => t.workPackage == wp)).length - 1) =
          [WpCmd.label (-12/10) (s : ℚ) (format_wp_name wp.data)
            (wpColor (workPackages data) wp)]) ∧
      (∀ cmd ∈ wpDecor (wpColor (workPackages data))
          (wp, s, s + ((tasksOf data).filter (fun t => t.workPackage == wp)).length - 1),
        cmd ∈ (create_gantt_chart data yBottom yTop).wpdecor) := by
  obtain ⟨s, hsr, hsb⟩ := layout_ranges (tasksOf data) (wpColor (workPackages data))
    (workPackages data) 0 wp (nodup_uniqueFirst _) hmem hne
  refine ⟨s, hsr, ?_, ?_, ?_, ?_, ?_⟩
  · show (((layoutAux (tasksOf data) (wpColor (workPackages data))
        (workPackages data) 0).1).filter (fun b => b.wp == wp)).map Bar.color = _
    rw [hsb]
    have hlen := barsFrom_length ((tasksOf data).filter (fun t => t.workPackage == wp))
      wp (wpColor (workPackages data) wp) s
    rw [List.eq_replicate_iff]
    refine ⟨by rw [List.length_map, hlen], ?_⟩
    intro c hc
    rcases List.mem_map.mp hc with ⟨b, hb, hbc⟩
    rw [← hbc]
    exact barsFrom_color _ wp _ s b hb
  · show (((layoutAux (tasksOf data) (wpColor (workPackages data))
        (workPackages data) 0).1).filter (fun b => b.wp == wp)).map Bar.y = _
    rw [hsb]
    exact barsFrom_y _ wp _ s
  · intro hlen
    have hse : ¬ (s = s + ((tasksOf data).filter (fun t => t.workPackage == wp)).length - 1) := by
      omega
    unfold wpDecor
    rw [if_neg hse]
  · intro hlen
    have hse : s = s + ((tasksOf data).filter (fun t => t.workPackage == wp)).length - 1 := by
      omega
    unfold wpDecor
    rw [if_pos hse]
  · intro cmd hcmd
    show cmd ∈ ((layoutAux (tasksOf data) (wpColor (workPackages data))
        (workPackages data) 0).2.1).flatMap (wpDecor (wpColor (workPackages data)))
    exact List.mem_flatMap.mpr ⟨_, hsr, hcmd⟩

/-- C5, witness: the two-task block of `"WP1: Core"` in the concrete chart
data. -/
theorem c5_witness :
    "WP1: Core" ∈ workPackages wData ∧
    (tasksOf wData).filter (fun t => t.workPackage == "WP1: Core") ≠ [] ∧
    ∃ s : Int,
      ("WP1: Core", s,
        s + ((tasksOf wData).filter (fun t => t.workPackage == "WP1: Core")).length - 1) ∈
        (create_gantt_chart wData 0 3).wpRanges ∧
      ((create_gantt_chart wData 0 3).bars.filter (fun b => b.wp == "WP1: Core")).map
          Bar.color =
        List.replicate ((tasksOf wData).filter (fun t => t.workPackage == "WP1: Core")).length
          (wpColor (workPackages wData) "WP1: Core") := by
  refine ⟨by decide, by decide, ?_⟩
  obtain ⟨s, h1, h2, _⟩ := c5_wp_blocks wData 0 3 "WP1: Core" (by decide) (by decide)
  exact ⟨s, h1, h2⟩

/-- The `Task` cell of a record dictionary. -/
theorem pyGet_task (x : GRecord) : pyGet (pyOfRecord x) "Task" = Py.str x.task := rfl

/-- The `Work Package` cell of a record dictionary. -/
theorem pyGet_wp (x : GRecord) :
    pyGet (pyOfRecord x) "Work Package" = Py.str x.workPackage := rfl

/-- The `Start` cell of a record dictionary. -/
theorem pyGet_start (x : GRecord) : pyGet (pyOfRecord x) "Start" = Py.int x.startMonth := rfl

/-- The `End` cell of a record dictionary. -/
theorem pyGet_end (x : GRecord) : pyGet (pyOfRecord x) "End" = Py.int x.endMonth := rfl

/-- The `Type` cell of a record dictionary. -/
theorem pyGet_typ (x : GRecord) : pyGet (pyOfRecord x) "Type" = Py.str x.typ := rfl

/-- A record list with nonblank text fields passes the amended acceptance
condition. -/
theorem pyOfData_good (data : List GRecord) (hdata : data ≠ [])
    (hgood : ∀ x ∈ data,
      pyStrip x.task ≠ "" ∧ pyStrip x.workPackage ≠ "" ∧ pyStrip x.typ ≠ "") :
    amendedGoodC2 (pyOfData data) = true := by
  have hcell : ∀ x ∈ data, ∀ c ∈ requiredColumns,
      codeMissingCell (pyGet (pyOfRecord x) c) = false := by
    intro x hx c hc
    obtain ⟨h1, h2, h3⟩ := hgood x hx
    simp only [requiredColumns, List.mem_cons, List.not_mem_nil, or_false] at hc
    rcases hc with rfl | rfl | rfl | rfl | rfl
    · rw [pyGet_task]
      simpa [codeMissingCell] using h1
    · rw [pyGet_wp]
      simpa [codeMissingCell] using h2
    · rw [pyGet_start]
      rfl
    · rw [pyGet_end]
      rfl
    · rw [pyGet_typ]
      simpa [codeMissingCell] using h3
  unfold amendedGoodC2 pyOfData
  dsimp only
  simp only [Bool.and_eq_true, List.all_eq_true]
  refine ⟨?_, ⟨?_, ?_⟩, ?_⟩
  · simp [pyTruthy]
    intro h
    exact hdata h
  · intro item hitem
    rcases List.mem_map.mp hitem with ⟨x, _, rfl⟩
    rfl
  · cases data with
    | nil => exact absurd rfl hdata
    | cons d0 rest =>
      intro c hc
      simp only [requiredColumns, List.mem_cons, List.not_mem_nil, or_false] at hc
      rcases hc with rfl | rfl | rfl | rfl | rfl
      · rfl
      · rfl
      · rfl
      · rfl
      · rfl
  · intro item hitem
    rcases List.mem_map.mp hitem with ⟨x, hx, rfl⟩
    intro c hc
    simp [hcell x hx c hc]

/-- Every emitted label reads off some sorted position. -/
theorem labelsAux_mem (ps : List (Int × String)) :
    ∀ (rest : List (Int × String)) (i0 : Nat) (lab : MLabel),
      lab ∈ labelsAux ps i0 rest →
      ∃ p ∈ rest, lab.x = p.1 ∧ lab.text = format_milestone_name p.2.data := by
  intro rest
  induction rest with
  | nil => intro i0 lab h; simp [labelsAux] at h
  | cons p rest' ih =>
    intro i0 lab h
    rcases List.mem_cons.mp h with h2 | h2
    · exact ⟨p, by simp, by rw [h2], by rw [h2]⟩
    · obtain ⟨q, hq1, hq2⟩ := ih (i0 + 1) lab h2
      exact ⟨q, List.mem_cons_of_mem _ hq1, hq2⟩

/-- C10: a fully populated record whose `Type` is neither `"Task"` nor
`"Milestone"` passes `validate_data` (which never inspects the content of
the `Type` value), and the renderer draws nothing for it: every bar
carries the data of some `"Task"` record, every vertical marker and every
milestone label belongs to some `"Milestone"` record, and every
work-package decoration belongs to a recorded range, each of which names a
package owning at least one `"Task"` record. -/
theorem c10_unknown_type (data : List GRecord) (yBottom yTop : ℚ) (r : GRecord)
    (hr : r ∈ data) (htask : r.typ ≠ "Task") (hms : r.typ ≠ "Milestone")
    (hdata : data ≠ [])
    (hgood : ∀ x ∈ data,
      pyStrip x.task ≠ "" ∧ pyStrip x.workPackage ≠ "" ∧ pyStrip x.typ ≠ "") :
    validate_data (pyOfData data) = Except.ok true ∧
    r ∉ tasksOf data ∧ r ∉ milestonesOf data ∧
    (∀ b ∈ (create_gantt_chart data yBottom yTop).bars,
      ∃ t ∈ data, t.typ = "Task" ∧ barInfo b = taskInfo t) ∧
    (∀ s ∈ (create_gantt_chart data yBottom yTop).msegs,
      ∃ m ∈ data, m.typ = "Milestone" ∧ s.x = m.startMonth) ∧
    (create_gantt_chart data yBottom yTop).mlabels.length = (milestonesOf data).length ∧
    (∀ lab ∈ (create_gantt_chart data yBottom yTop).mlabels,
      ∃ m ∈ data, m.typ = "Milestone" ∧ lab.x = m.startMonth ∧
        lab.text = format_milestone_name m.task.data) ∧
    (∀ cmd ∈ (create_gantt_chart data yBottom yTop).wpdecor,
      ∃ wp s e, (wp, s, e) ∈ (create_gantt_chart data yBottom yTop).wpRanges ∧
        cmd ∈ wpDecor (wpColor (workPackages data)) (wp, s, e)) ∧
    (∀ wp s e, (wp, s, e) ∈ (create_gantt_chart data yBottom yTop).wpRanges →
      ∃ t ∈ data, t.typ = "Task" ∧ t.workPackage = wp) := by
  have hcov : ∀ t ∈ tasksOf data, t.workPackage ∈ workPackages data := by
    intro t ht
    have h1 : t ∈ data := List.mem_of_mem_filter ht
    unfold workPackages
    rw [mem_uniqueFirst]
    exact List.mem_map.mpr ⟨t, h1, rfl⟩
  have hposperm : (milestonePositions (milestonesOf data)).Perm
      ((milestonesOf data).map (fun m => (m.startMonth, m.task))) := by
    unfold milestonePositions
    exact pySort_perm _
  refine ⟨?_, ?_, ?_, ?_, ?_, ?_, ?_, ?_, ?_⟩
  · exact (validate_iff_amendedGood (pyOfData data)).mpr (pyOfData_good data hdata hgood)
  · intro hmem
    have := (List.mem_filter.mp hmem).2
    exact htask (by simpa using this)
  · intro hmem
    have := (List.mem_filter.mp hmem).2
    exact hms (by simpa using this)
  · intro b hb
    have hperm : (((create_gantt_chart data yBottom yTop).bars).map barInfo).Perm
        ((tasksOf data).map taskInfo) := by
      show (((layoutAux (tasksOf data) (wpColor (workPackages data))
          (workPackages data) 0).1).map barInfo).Perm ((tasksOf data).map taskInfo)
      rw [layout_bars_info, ← List.map_flatMap]
      exact (flatMap_filter_perm (workPackages data) (tasksOf data)
        (nodup_uniqueFirst _) hcov).map taskInfo
    have : barInfo b ∈ ((tasksOf data).map taskInfo) :=
      hperm.mem_iff.mp (List.mem_map.mpr ⟨b, hb, rfl⟩)
    rcases List.mem_map.mp this with ⟨t, ht, hti⟩
    refine ⟨t, List.mem_of_mem_filter ht, ?_, hti.symm⟩
    have := (List.mem_filter.mp ht).2
    simpa using this
  · intro s hs
    rcases List.mem_flatMap.mp hs with ⟨m, hm, hsm⟩
    refine ⟨m, List.mem_of_mem_filter hm, ?_, milestoneSegs_x _ _ _ _ m s hsm⟩
    have := (List.mem_filter.mp hm).2
    simpa using this
  · show (labelsAux (milestonePositions (milestonesOf data)) 0
        (milestonePositions (milestonesOf data))).length = _
    rw [labelsAux_length, hposperm.length_eq, List.length_map]
  · intro lab hlab
    obtain ⟨p, hp, hx, htext⟩ := labelsAux_mem _ _ 0 lab hlab
    have hp2 : p ∈ (milestonesOf data).map (fun m => (m.startMonth, m.task)) :=
      hposperm.mem_iff.mp hp
    rcases List.mem_map.mp hp2 with ⟨m, hm, hmp⟩
    refine ⟨m, List.mem_of_mem_filter hm, ?_, ?_, ?_⟩
    · have := (List.mem_filter.mp hm).2
      simpa using this
    · rw [hx, ← hmp]
    · rw [htext, ← hmp]
  · intro cmd hcmd
    rcases List.mem_flatMap.mp hcmd with ⟨rg, hrg, hcrg⟩
    exact ⟨rg.1, rg.2.1, rg.2.2, hrg, hcrg⟩
  · intro wp s e hrange
    have := layout_ranges_src (tasksOf data) (wpColor (workPackages data))
      (workPackages data) 0 wp s e hrange
    obtain ⟨t, ht⟩ := List.exists_mem_of_ne_nil _ this.2
    rcases List.mem_filter.mp ht with ⟨ht1, ht2⟩
    refine ⟨t, List.mem_of_mem_filter ht1, ?_, by simpa using ht2⟩
    have := (List.mem_filter.mp ht1).2
    simpa using this

/-- C10, witness: the concrete record of type `"Remark"` inside `wData`
passes validation and owns no drawing primitive. -/
theorem c10_witness :
    validate_data (pyOfData wData) = Except.ok true ∧
    (∀ b ∈ (create_gantt_chart wData 0 3).bars,
      ∃ t ∈ wData, t.typ = "Task" ∧ barInfo b = taskInfo t) ∧
    (∀ s ∈ (create_gantt_chart wData 0 3).msegs,
      ∃ m ∈ wData, m.typ = "Milestone" ∧ s.x = m.startMonth) := by
  have h := c10_unknown_type wData 0 3
    { task := "Note", workPackage := "WP2: QA", startMonth := 2, endMonth := 2,
      typ := "Remark", relatedWPs := Option.none }
    (by decide) (by decide) (by decide) (by decide) (by decide)
  exact ⟨h.1, h.2.2.2.1, h.2.2.2.2.1⟩

/-- C8, counterexample: the milestone `c8Ms` lists `"WP1, WP1"`, whose two
identifiers both resolve to the single known package `"WP1: Design"`; the
claim then requires a single solid full-height line in that package's
color, but the code counts resolved identifiers (not distinct packages)
and takes the striped branch, emitting many short segments instead of the
one full-height line. -/
theorem c8_counterexample :
    resolvedPackages c8Wps "WP1, WP1" = ["WP1: Design"] ∧
    milestoneSegs c8Wps (wpColor c8Wps) 0 6 c8Ms ≠
      [{ x := 3, ymin := 0, ymax := 1, color := wpColor c8Wps "WP1: Design" }] := by
  refine ⟨rfl, ?_⟩
  have heq : milestoneSegs c8Wps (wpColor c8Wps) 0 6 c8Ms =
      stripeSegs 3 0 6 (resolveColors c8Wps (wpColor c8Wps) "WP1, WP1") := rfl
  have hlen : (milestoneSegs c8Wps (wpColor c8Wps) 0 6 c8Ms).length = 30 := by
    rw [heq, stripeSegs_eq_map, List.length_map, List.length_range]
    have h1 : numStripes 0 6 = 31 := by
      unfold numStripes pyIntTrunc
      rw [if_pos (by norm_num)]
      norm_num
    have h2 : (⌈((6 : ℚ) - 0) * 5⌉ : Int) = 30 := by norm_num
    rw [h1, h2]
    rfl
  intro hcontra
  rw [hcontra] at hlen
  simp at hlen

/-- C8, amended: the marker of a milestone with no `Related WPs` value is
the gray full-height line; when the listed identifiers yield exactly one
resolved color the marker is a solid full-height line in that color; when
they yield more than one resolved color (even if several identifiers
resolve to the same package) the marker is the stripe stack — nonempty,
entirely at the milestone's month, its `j`-th stripe colored by cycling
through the resolved colors — and when no identifier resolves the marker
is the gray full-height line. -/
theorem c8_amended (wps : List String) (col : String → RColor) (yBottom yTop : ℚ)
    (m : GRecord) (h : yBottom < yTop) :
    (m.relatedWPs = Option.none →
      milestoneSegs wps col yBottom yTop m =
        [{ x := m.startMonth, ymin := 0, ymax := 1, color := RColor.named "gray" }]) ∧
    (∀ rel, m.relatedWPs = some rel →
      (resolveColors wps col rel).length = 1 →
      milestoneSegs wps col yBottom yTop m =
        [{ x := m.startMonth, ymin := 0, ymax := 1,
           color := (resolveColors wps col rel).getD 0 (RColor.named "gray") }]) ∧
    (∀ rel, m.relatedWPs = some rel →
      1 < (resolveColors wps col rel).length →
      milestoneSegs wps col yBottom yTop m =
          stripeSegs m.startMonth yBottom yTop (resolveColors wps col rel) ∧
        milestoneSegs wps col yBottom yTop m ≠ [] ∧
        (∀ s ∈ milestoneSegs wps col yBottom yTop m, s.x = m.startMonth) ∧
        (∀ j : Nat, j < (milestoneSegs wps col yBottom yTop m).length →
          ((milestoneSegs wps col yBottom yTop m).getD j
              { x := 0, ymin := 0, ymax := 0, color := RColor.named "gray" }).color =
            (resolveColors wps col rel).getD (j % (resolveColors wps col rel).length)
              (RColor.named "gray"))) ∧
    (∀ rel, m.relatedWPs = some rel →
      (resolveColors wps col rel).length = 0 →
      milestoneSegs wps col yBottom yTop m =
        [{ x := m.startMonth, ymin := 0, ymax := 1, color := RColor.named "gray" }]) := by
  refine ⟨?_, ?_, ?_, ?_⟩
  · intro hrel
    unfold milestoneSegs
    rw [hrel]
  · intro rel hrel h1
    unfold milestoneSegs
    rw [hrel]
    dsimp only
    rw [if_pos h1]
  · intro rel hrel h1
    have heq : milestoneSegs wps col yBottom yTop m =
        stripeSegs m.startMonth yBottom yTop (resolveColors wps col rel) := by
      unfold milestoneSegs
      rw [hrel]
      dsimp only
      rw [if_neg (by omega), if_pos h1]
    refine ⟨heq, ?_, ?_, ?_⟩
    · rw [heq]
      exact stripeSegs_ne_nil _ _ _ _ h
    · rw [heq]
      exact stripeSegs_x _ _ _ _
    · rw [heq]
      exact stripeSegs_colors _ _ _ _
  · intro rel hrel h1
    unfold milestoneSegs
    rw [hrel]
    dsimp only
    rw [if_neg (by omega), if_neg (by omega)]

/-- C8, witness: the concrete milestone `c8wMs` with the single identifier
`"WP1"` draws the solid line in the color of `"WP1: Design"`, by the
amended theorem with all hypotheses discharged. -/
theorem c8_witness :
    (0 : ℚ) < 6 ∧
    milestoneSegs c8Wps (wpColor c8Wps) 0 6 c8wMs =
      [{ x := 5, ymin := 0, ymax := 1,
         color := (resolveColors c8Wps (wpColor c8Wps) "WP1").getD 0
           (RColor.named "gray") }] :=
  ⟨by norm_num,
    (c8_amended c8Wps (wpColor c8Wps) 0 6 c8wMs (by norm_num)).2.1 "WP1" rfl (by decide)⟩
